import Mathlib

/-!
Verification of the Mesocarnivore-Data-Admin scripts against their
natural-language specification.

The Python scripts are shallowly embedded: each function that the claims
touch is translated into a pure Lean function over explicit inputs
(record collections, attachment lists, per-call collaborator outcomes),
and the I/O calls it makes (attachment downloads/uploads, feature edits,
object-store reads) are reified as values in an effect list that the
function returns.  Missing attribute values (Python `None` / pandas `NaN`)
are modelled uniformly as `Option.none`.
-/

set_option maxRecDepth 4000

/-! ## Record differ: `badger_scripts/append_data_to_editing_flayer.find_new_oids` -/

namespace AppendData

/-- Outcome of `find_new_oids`: either a (set-semantics) list of new object
ids, or the clean `exit()` taken when the difference is empty. -/
inductive DifferResult where
  | newIds (ids : List Int)
  | cleanExit
  deriving Repr, DecidableEq

/-- Embeds `find_new_oids` (append_data_to_editing_flayer.py lines 50-72):
`raw_oids` and `editing_oids` are turned into Python sets, the set
difference is taken, and if it is empty the script prints a message and
calls `exit()` (a clean, non-error termination).  Python set iteration
order is unspecified, so the difference is represented up to set
semantics by deduplicating the source list and filtering. -/
def find_new_oids (raw_oids editing_oids : List Int) : DifferResult :=
  let new_oids := raw_oids.dedup.filter (fun x => decide (x ∉ editing_oids))
  if new_oids.isEmpty then .cleanExit else .newIds new_oids

/-- Membership in the result of `find_new_oids`, for stating set-difference
correctness (`cleanExit` carries no ids). -/
def differMem (r : DifferResult) (x : Int) : Prop :=
  match r with
  | .newIds l => x ∈ l
  | .cleanExit => False

end AppendData

/-- C2: the record differ returns exactly the set difference A − B of the
source and destination identifier collections, and when A ⊆ B it takes the
clean-exit path (terminating without an error) instead of returning ids. -/
theorem C2_differ_set_difference (A B : List Int) :
    (∀ x : Int, AppendData.differMem (AppendData.find_new_oids A B) x ↔ x ∈ A ∧ x ∉ B) ∧
    ((∀ y ∈ A, y ∈ B) ↔ AppendData.find_new_oids A B = .cleanExit) := by
  constructor
  · intro x
    unfold AppendData.find_new_oids
    by_cases hempty : (A.dedup.filter (fun x => decide (x ∉ B))).isEmpty
    · simp only [hempty, if_pos]
      simp only [AppendData.differMem, false_iff]
      intro ⟨hxA, hxB⟩
      rw [List.isEmpty_iff, List.filter_eq_nil_iff] at hempty
      exact absurd (by simpa using hxB) (by simpa using hempty x (List.mem_dedup.mpr hxA))
    · simp only [hempty, if_neg, not_false_iff]
      simp [AppendData.differMem, List.mem_filter, List.mem_dedup]
  · constructor
    · intro hsub
      unfold AppendData.find_new_oids
      simp only [List.isEmpty_iff, List.filter_eq_nil_iff]
      rw [if_pos]
      intro a ha
      simpa using hsub a (List.mem_dedup.mp ha)
    · intro hclean y hyA
      by_contra hyB
      unfold AppendData.find_new_oids at hclean
      rw [if_neg] at hclean
      · exact absurd hclean (by simp)
      · rw [List.isEmpty_iff, List.filter_eq_nil_iff]
        intro hall
        have := hall y (List.mem_dedup.mpr hyA)
        simp [hyB] at this

/-- C2 witness: concrete run with source ids {1,2,3} and destination ids
{1,2}; id 3 is exactly the difference, and {1,2} ⊆ {1,2,3} destination does
not trigger the clean exit. -/
theorem C2_differ_set_difference_witness :
    AppendData.differMem (AppendData.find_new_oids [1, 2, 3] [1, 2]) 3 ∧
    AppendData.find_new_oids [1, 2] [1, 2, 3] = .cleanExit := by
  constructor
  · exact ((C2_differ_set_difference [1, 2, 3] [1, 2]).1 3).mpr (by decide)
  · exact ((C2_differ_set_difference [1, 2] [1, 2, 3]).2).mp (by decide)

/-! ## Attachment upload with compensating delete:
`badger_scripts/append_data_to_editing_flayer.upload_attachments` -/

namespace AppendData

/-- Outcome of one `raw_flayer.attachments.download(...)[0]` call: either it
raises (e.g. `IndexError` on an empty result list) or it returns a local
file path. -/
inductive DlResult where
  | raises
  | file (path : String)
  deriving Repr, DecidableEq

/-- Outcome of one `editing_flayer.attachments.add(...)` call. -/
inductive AddResult where
  | ok
  | raises
  deriving Repr, DecidableEq

/-- One attachment of the raw feature together with the outcomes the two
collaborator calls would have for it on this run. -/
structure AttachmentTx where
  dl : DlResult
  add : AddResult
  deriving Repr, DecidableEq

/-- An effect emitted by `upload_attachments` against the editing layer. -/
inductive UpAction where
  | addAttachment (editingOid : Int) (path : String)
  | deleteFeature (editingOid : Int)
  | logNoFile (editingOid : Int)
  deriving Repr, DecidableEq

/-- Embeds `upload_attachments` (append_data_to_editing_flayer.py lines
108-143) for one already-created editing feature `editingOid`: per
attachment, a download is attempted; a raising download or a raising
`attachments.add` lands in the `except` handler, which deletes the
editing feature (`edit_features(deletes=[editing_oid])`); a download that
returns a falsy file path only logs ("No file returned") without a
delete; a successful download followed by a successful add emits the add.
The loop continues after every branch. -/
def upload_attachments (editingOid : Int) (atts : List AttachmentTx) : List UpAction :=
  atts.foldl
    (fun acc a =>
      match a.dl with
      | .raises => acc ++ [.deleteFeature editingOid]
      | .file p =>
        if p = "" then acc ++ [.logNoFile editingOid]
        else
          match a.add with
          | .ok => acc ++ [.addAttachment editingOid p]
          | .raises => acc ++ [.deleteFeature editingOid])
    []

theorem upload_attachments_append (editingOid : Int) (atts : List AttachmentTx)
    (a : AttachmentTx) :
    upload_attachments editingOid (atts ++ [a]) =
      upload_attachments editingOid atts ++
        (match a.dl with
         | .raises => [.deleteFeature editingOid]
         | .file p =>
           if p = "" then [.logNoFile editingOid]
           else
             match a.add with
             | .ok => [.addAttachment editingOid p]
             | .raises => [.deleteFeature editingOid]) := by
  unfold upload_attachments
  rw [List.foldl_append]
  cases hdl : a.dl with
  | raises => simp [hdl]
  | file p =>
    by_cases hp : p = ""
    · simp [hdl, hp]
    · cases hadd : a.add with
      | ok => simp [hdl, hp, hadd]
      | raises => simp [hdl, hp, hadd]

end AppendData

/-- C3: if, for a feature already created at the destination, some
attachment's download or upload raises (successful downloads returning a
real file path, per the attachment-store contract), then the run emits a
compensating delete of the partially-created editing feature; and once
that feature is gone from the destination (its reconciliation key absent
from the destination ids), the differ of a subsequent run reports the
source id as still new. -/
theorem C3_compensating_delete (editingOid : Int) (atts : List AppendData.AttachmentTx)
    (hcontract : ∀ a ∈ atts, ∀ p, a.dl = .file p → p ≠ "")
    (hfail : ∃ a ∈ atts, a.dl = .raises ∨ a.add = .raises) :
    AppendData.UpAction.deleteFeature editingOid ∈
      AppendData.upload_attachments editingOid atts ∧
    (∀ (oid : Int) (raw editing : List Int), oid ∈ raw → oid ∉ editing →
      AppendData.differMem (AppendData.find_new_oids raw editing) oid) := by
  constructor
  · induction atts using List.reverseRecOn with
    | nil => simp at hfail
    | append_singleton xs a ih =>
      rw [AppendData.upload_attachments_append]
      rcases hfail with ⟨b, hb, hfailb⟩
      rcases List.mem_append.mp hb with hbxs | hba
      · have : AppendData.UpAction.deleteFeature editingOid ∈
            AppendData.upload_attachments editingOid xs :=
          ih (fun c hc => hcontract c (List.mem_append.mpr (Or.inl hc))) ⟨b, hbxs, hfailb⟩
        exact List.mem_append.mpr (Or.inl this)
      · have hba' : b = a := by simpa using hba
        subst hba'
        rcases hfailb with hdl | hadd
        · rw [hdl]; simp
        · cases hd : b.dl with
          | raises => simp
          | file p =>
            have hp : p ≠ "" := hcontract b hb p hd
            simp [hp, hadd]
  · intro oid raw editing hraw hediting
    exact ((C2_differ_set_difference raw editing).1 oid).mpr ⟨hraw, hediting⟩

/-- C3 witness: a two-attachment run where the second attachment's upload
raises; the compensating delete is emitted, and id 7 (present at the
source, absent from the destination after the delete) is reported as new
by the differ. -/
theorem C3_compensating_delete_witness :
    AppendData.UpAction.deleteFeature 4 ∈
      AppendData.upload_attachments 4
        [⟨.file "a.jpg", .ok⟩, ⟨.file "b.jpg", .raises⟩] ∧
    (∀ (oid : Int) (raw editing : List Int), oid ∈ raw → oid ∉ editing →
      AppendData.differMem (AppendData.find_new_oids raw editing) oid) :=
  C3_compensating_delete 4 [⟨.file "a.jpg", .ok⟩, ⟨.file "b.jpg", .raises⟩]
    (by
      intro a ha p hdl
      have h : a = (⟨.file "a.jpg", .ok⟩ : AppendData.AttachmentTx) ∨
          a = (⟨.file "b.jpg", .raises⟩ : AppendData.AttachmentTx) := by simpa using ha
      rcases h with h | h <;> subst h <;> injection hdl with h2 <;> subst h2 <;> decide)
    ⟨⟨.file "b.jpg", .raises⟩, by simp, Or.inr rfl⟩

/-! ## CHEFS append de-duplication:
`badger_scripts/upload_chefs_to_ago.get_ago_data` and `edit_ago_data` -/

namespace UploadChefs

/-- A destination (AGOL) feature as stored in the layer: its
`CreationDate` timestamp and its `unique_id` attribute, which can be
null. -/
structure StoredFeature where
  CreationDate : Int
  unique_id : Option String
  deriving Repr, DecidableEq

/-- A formatted CHEFS record destined for the add call; `unique_id` is the
cross-system reconciliation key, `payload` stands for the remaining
attribute columns carried through unchanged. -/
structure ChefsRecord where
  unique_id : String
  payload : List (String × String)
  deriving Repr, DecidableEq

/-- Embeds the layer query of `get_ago_data` (upload_chefs_to_ago.py line
221) with the filter built in `main` (line 64):
`CreationDate >= '{year}-01-01' AND unique_id IS NOT NULL`.  Only
features created at or after the year start (`yearStart` is that date's
timestamp) and holding a non-null `unique_id` are returned; every other
destination feature is invisible to the caller. -/
def get_ago_data_query (yearStart : Int) (layerFeatures : List StoredFeature) :
    List StoredFeature :=
  layerFeatures.filter (fun f => decide (yearStart ≤ f.CreationDate) && f.unique_id.isSome)

/-- Embeds the add path of `edit_ago_data` (upload_chefs_to_ago.py lines
398-454): `existing_unique_ids` is the set of `unique_id` values of the
features handed in (`survey123_properties.features`, i.e. the query
result), and
`new_records_for_ago[~new_records_for_ago['unique_id'].isin(existing_unique_ids)]`
drops every new record whose id is among them before `features_to_add`
is built. -/
def edit_ago_data_adds (originalFeatures : List StoredFeature)
    (newRecordsForAgo : List ChefsRecord) : List ChefsRecord :=
  let existing_unique_ids := originalFeatures.map (·.unique_id)
  newRecordsForAgo.filter (fun r => decide (some r.unique_id ∉ existing_unique_ids))

/-- The add path as `main` composes it (upload_chefs_to_ago.py lines 81,
95): the destination is queried with the year-scoped filter and
`edit_ago_data` de-duplicates only against that query's features. -/
def chefs_add_run (yearStart : Int) (layerFeatures : List StoredFeature)
    (newRecordsForAgo : List ChefsRecord) : List ChefsRecord :=
  edit_ago_data_adds (get_ago_data_query yearStart layerFeatures) newRecordsForAgo

theorem query_ids_iff (yearStart : Int) (L : List StoredFeature) (v : String) :
    some v ∈ (get_ago_data_query yearStart L).map (·.unique_id) ↔
      ∃ f ∈ L, yearStart ≤ f.CreationDate ∧ f.unique_id = some v := by
  unfold get_ago_data_query
  constructor
  · intro h
    obtain ⟨f, hf, hid⟩ := List.mem_map.mp h
    obtain ⟨hfL, hcond⟩ := List.mem_filter.mp hf
    refine ⟨f, hfL, ?_, hid⟩
    exact of_decide_eq_true ((Bool.and_eq_true _ _).mp hcond).1
  · rintro ⟨f, hfL, hle, hid⟩
    refine List.mem_map.mpr ⟨f, List.mem_filter.mpr ⟨hfL, ?_⟩, hid⟩
    rw [Bool.and_eq_true]
    exact ⟨decide_eq_true hle, by rw [hid]; rfl⟩

end UploadChefs

/-- C10 counterexample: the destination already holds a feature with
`unique_id` "a", created before the year window (CreationDate 50 <
yearStart 100).  The year-scoped query returns no features, so the
`~isin` filter sees an empty id set and the incoming CHEFS record with
`unique_id` "a" survives to the add call — a feature is added whose
`unique_id` duplicates a pre-existing destination `unique_id`, refuting
the claimed destination-level invariant. -/
theorem C10_duplicate_add_counterexample :
    UploadChefs.get_ago_data_query 100 [⟨50, some "a"⟩] = [] ∧
    UploadChefs.chefs_add_run 100 [⟨50, some "a"⟩] [⟨"a", []⟩] = [⟨"a", []⟩] ∧
    (⟨50, some "a"⟩ : UploadChefs.StoredFeature).unique_id =
      some (⟨"a", []⟩ : UploadChefs.ChefsRecord).unique_id := by
  refine ⟨by decide, by decide, rfl⟩

/-- C10 (amended): the de-duplication holds only relative to the
year-scoped query: no record handed to the add call duplicates the
`unique_id` of any destination feature inside the query window
(`CreationDate` at or after the year start and `unique_id` non-null),
and exactly the records with such an in-window duplicate are dropped —
destination features outside the window are not filtered against. -/
theorem C10_no_duplicate_within_query_window (yearStart : Int)
    (layerFeatures : List UploadChefs.StoredFeature)
    (newRecords : List UploadChefs.ChefsRecord) :
    (∀ r ∈ UploadChefs.chefs_add_run yearStart layerFeatures newRecords,
      ∀ f ∈ layerFeatures, yearStart ≤ f.CreationDate →
        f.unique_id ≠ some r.unique_id) ∧
    UploadChefs.chefs_add_run yearStart layerFeatures newRecords =
      newRecords.filter (fun r =>
        decide (∀ f ∈ layerFeatures, yearStart ≤ f.CreationDate →
          f.unique_id ≠ some r.unique_id)) := by
  constructor
  · intro r hr f hf hle hid
    unfold UploadChefs.chefs_add_run UploadChefs.edit_ago_data_adds at hr
    simp only [List.mem_filter, decide_eq_true_eq] at hr
    exact hr.2 ((UploadChefs.query_ids_iff yearStart layerFeatures r.unique_id).mpr
      ⟨f, hf, hle, hid⟩)
  · unfold UploadChefs.chefs_add_run UploadChefs.edit_ago_data_adds
    apply List.filter_congr
    intro r _
    simp only [decide_eq_decide]
    constructor
    · intro hnot f hf hle hid
      exact hnot ((UploadChefs.query_ids_iff yearStart layerFeatures r.unique_id).mpr
        ⟨f, hf, hle, hid⟩)
    · intro hall hmem
      obtain ⟨f, hf, hle, hid⟩ :=
        (UploadChefs.query_ids_iff yearStart layerFeatures r.unique_id).mp hmem
      exact hall f hf hle hid

/-- C10 witness: with an in-window feature id "a" (CreationDate 150) and a
pre-window feature id "b" (CreationDate 50), the incoming records "a",
"b", "c" are filtered to "b" and "c": the in-window duplicate "a" is
dropped (and its feature's id provably differs from every added
record's), while the pre-window id "b" is re-added. -/
theorem C10_no_duplicate_within_query_window_witness :
    (⟨150, some "a"⟩ : UploadChefs.StoredFeature).unique_id ≠
      some (⟨"c", []⟩ : UploadChefs.ChefsRecord).unique_id ∧
    UploadChefs.chefs_add_run 100 [⟨150, some "a"⟩, ⟨50, some "b"⟩]
      [⟨"a", []⟩, ⟨"b", []⟩, ⟨"c", []⟩] = [⟨"b", []⟩, ⟨"c", []⟩] := by
  constructor
  · exact (C10_no_duplicate_within_query_window 100 [⟨150, some "a"⟩, ⟨50, some "b"⟩]
      [⟨"a", []⟩, ⟨"b", []⟩, ⟨"c", []⟩]).1 ⟨"c", []⟩ (by decide)
      ⟨150, some "a"⟩ (by decide) (by decide)
  · rw [(C10_no_duplicate_within_query_window 100 [⟨150, some "a"⟩, ⟨50, some "b"⟩]
      [⟨"a", []⟩, ⟨"b", []⟩, ⟨"c", []⟩]).2]
    decide

/-! ## Shared model of AGO attachments and Python string helpers -/

namespace AgoModel

/-- One stored attachment of a record, as reported by
`attachments.get_list(oid=...)`: its id and current file name. -/
structure Attachment where
  id : Nat
  name : String
  deriving Repr, DecidableEq

/-- An attachment-store effect performed while renaming: the download of an
attachment and the `attachments.update` call that replaces its file (the
successful `try` path of the update-else-add-and-delete block). -/
inductive RnAction where
  | download (oid attachId : Nat)
  | updateAttachment (oid attachId : Nat) (newName : String)
  deriving Repr, DecidableEq

/-- The attachment id an `RnAction` touches. -/
def RnAction.attachIdOf : RnAction → Nat
  | .download _ i => i
  | .updateAttachment _ i _ => i

def strStartsWithCore (s pre : List Char) : Bool :=
  match pre, s with
  | [], _ => true
  | _ :: _, [] => false
  | d :: ds, c :: cs => c == d && strStartsWithCore cs ds

/-- Python `s.startswith(pre)`. -/
def pyStartsWith (s pre : String) : Bool :=
  strStartsWithCore s.data pre.data

theorem strStartsWithCore_append (pre rest : List Char) :
    strStartsWithCore (pre ++ rest) pre = true := by
  induction pre with
  | nil => simp [strStartsWithCore]
  | cons c cs ih => simp [strStartsWithCore, ih]

/-- A string surely starts with the text it was built from by appending. -/
theorem pyStartsWith_append (pre rest : String) :
    pyStartsWith (pre ++ rest) pre = true := by
  unfold pyStartsWith
  rw [show (pre ++ rest).data = pre.data ++ rest.data from String.data_append pre rest]
  exact strStartsWithCore_append pre.data rest.data

/-- Python `s.rstrip('. ')`. -/
def pyRstripDotSpace (s : String) : String :=
  String.mk ((s.data.reverse.dropWhile (fun c => c == '.' || c == ' ')).reverse)

/-- Python `s.split('.')` over the character list: pieces between the
dots, with empty pieces kept, never an empty list overall. -/
def splitDotCore : List Char → List Char → List String
  | acc, [] => [String.mk acc.reverse]
  | acc, c :: cs =>
    if c = '.' then String.mk acc.reverse :: splitDotCore [] cs
    else splitDotCore (c :: acc) cs

/-- Python `name.split('.')[-1]`: the file extension as the scripts compute
it (`split` never returns an empty list, so `[-1]` is the last piece). -/
def fileTypeOf (name : String) : String :=
  (splitDotCore [] name.data).getLastD ""

end AgoModel

/-! ## Attachment synchronizer, badger variant:
`badger_scripts/backup_data_and_photos.rename_attachments` -/

namespace BackupData

open AgoModel

/-- Embeds `clean_filename` (backup_data_and_photos.py lines 111-125):
each invalid path character of the sighting date is replaced by `-` and
trailing dots/spaces are stripped. -/
def clean_filename (filename : String) : String :=
  let invalid_chars := "<>:\"/\\|?*".data
  pyRstripDotSpace
    (String.mk (filename.data.map (fun c => if invalid_chars.contains c then '-' else c)))

/-- Per-record loop state of `rename_attachments`: the attachment counter,
the accumulated `photo_name_list`, the attachment names now stored
(renames applied in place by `attachments.update`), the store effects
performed, and the successive values written into the `photo_name`
attribute by the queued feature updates (the last one wins when
`edit_features(updates=...)` is applied). -/
structure RnState where
  counter : Nat
  photoNames : List String
  newAtts : List Attachment
  effects : List RnAction
  updates : List String
  deriving Repr, DecidableEq

/-- One iteration of the inner `for attachment in attachments_list` loop of
`rename_attachments` (backup_data_and_photos.py lines 188-249): an
attachment whose name already starts with `f"{oid}_{clean_sighting_date}"`
is skipped (`continue`); otherwise the new canonical name
`f"{oid}_{clean_sighting_date}_{attachment_counter}.{file_type}"` is
built, the file is downloaded and the stored attachment updated, the name
is appended to `photo_name_list`, and a feature update carrying
`','.join(photo_name_list)` is queued. -/
def rename_attachments_step (oid : Nat) (cleanSightingDate : String)
    (st : RnState) (a : Attachment) : RnState :=
  if pyStartsWith a.name (toString oid ++ "_" ++ cleanSightingDate) then
    { st with newAtts := st.newAtts ++ [a] }
  else
    let file_type := fileTypeOf a.name
    let attachment_name :=
      toString oid ++ "_" ++ cleanSightingDate ++ "_" ++ toString st.counter ++ "." ++ file_type
    let photo_name_list := st.photoNames ++ [attachment_name]
    { counter := st.counter + 1
      photoNames := photo_name_list
      newAtts := st.newAtts ++ [{ a with name := attachment_name }]
      effects := st.effects ++ [.download oid a.id, .updateAttachment oid a.id attachment_name]
      updates := st.updates ++ [String.intercalate "," photo_name_list] }

/-- Embeds the per-record body of `rename_attachments`
(backup_data_and_photos.py lines 155-253) for one feature `oid` with
sighting date `sightingDate` and stored attachments `atts`:
`attachment_counter` starts at 1 and the loop above runs over the
attachment list. -/
def rename_attachments (oid : Nat) (sightingDate : String)
    (atts : List Attachment) : RnState :=
  atts.foldl (rename_attachments_step oid (clean_filename sightingDate))
    { counter := 1, photoNames := [], newAtts := [], effects := [], updates := [] }

/-- The value of the record's `photo_name` attribute after
`edit_features(updates=features_for_update)` is applied: the last queued
update wins; with no queued update the attribute keeps its old value. -/
def fieldAfter (orig : String) (st : RnState) : String :=
  st.updates.getLastD orig

/-- Whether an attachment name is already canonical for this record. -/
def canonical (oid : Nat) (cleanSightingDate : String) (a : Attachment) : Bool :=
  pyStartsWith a.name (toString oid ++ "_" ++ cleanSightingDate)

end BackupData

/-! ## Attachment synchronizer, fisher variant:
`fisher_scripts/hair_snag_data_modification.rename_attachments` -/

namespace HairSnag

open AgoModel

/-- Per-record loop state of the fisher `rename_attachments`.  The script
keeps no `photo_name_list`: each queued feature update is an unmodified
deep copy of the original feature, so `updates` records the value the
queued copy carries in its photo-name attribute — always the original
one. -/
structure RnState where
  counter : Nat
  newAtts : List Attachment
  effects : List RnAction
  updates : List String
  deriving Repr, DecidableEq

/-- One iteration of the attachment loop of the fisher `rename_attachments`
(hair_snag_data_modification.py lines 185-238): an attachment whose name
already starts with `f"{feature_id}"` is skipped; otherwise the canonical
name `f"{feature_id}_photo_{attachment_counter}.{file_type}"` is built,
the file downloaded, the stored attachment updated, and an unmodified
copy of the original feature queued (leaving every attribute, the
photo-name field included, at its original value `origField`). -/
def rename_attachments_step (featureId origField : String)
    (st : RnState) (a : Attachment) : RnState :=
  if pyStartsWith a.name featureId then
    { st with newAtts := st.newAtts ++ [a] }
  else
    let file_type := fileTypeOf a.name
    let attachment_name := featureId ++ "_photo_" ++ toString st.counter ++ "." ++ file_type
    { counter := st.counter + 1
      newAtts := st.newAtts ++ [{ a with name := attachment_name }]
      effects := st.effects ++ [.download 0 a.id, .updateAttachment 0 a.id attachment_name]
      updates := st.updates ++ [origField] }

/-- Embeds the per-record body of the fisher `rename_attachments`
(hair_snag_data_modification.py lines 164-242) for one feature with id
label `featureId`, photo-name attribute `origField` and stored
attachments `atts`. -/
def rename_attachments (featureId origField : String)
    (atts : List Attachment) : RnState :=
  atts.foldl (rename_attachments_step featureId origField)
    { counter := 1, newAtts := [], effects := [], updates := [] }

/-- Photo-name attribute after the queued updates are applied. -/
def fieldAfter (orig : String) (st : RnState) : String :=
  st.updates.getLastD orig

end HairSnag

/-! ## Attachment synchronizer, culvert variant:
`badger_scripts/culvert_assessment_data_admin.rename_photos` -/

namespace CulvertAdmin

open AgoModel

/-- Per-record loop state of `rename_photos`.  `photo_names` is
re-initialized to `[]` inside the else branch on every iteration, so each
queued feature update carries exactly the one name renamed on that
iteration; `updates` lists those written `PHOTO_NAME` values in order. -/
structure RnState where
  counter : Nat
  newAtts : List Attachment
  effects : List RnAction
  updates : List String
  deriving Repr, DecidableEq

/-- One iteration of the attachment loop of `rename_photos`
(culvert_assessment_data_admin.py lines 139-194): an attachment whose
name already starts with `feature_id` is skipped; otherwise
`photo_names = []` is freshly created, the canonical name
`f"{feature_id}_photo_{attachment_counter}.{file_type}"` appended to it,
the file downloaded and the stored attachment updated, and a feature
update carrying `",".join(photo_names)` — the single new name — is
queued. -/
def rename_photos_step (featureId : String) (st : RnState) (a : Attachment) : RnState :=
  if pyStartsWith a.name featureId then
    { st with newAtts := st.newAtts ++ [a] }
  else
    let file_type := fileTypeOf a.name
    let attachment_name := featureId ++ "_photo_" ++ toString st.counter ++ "." ++ file_type
    let photo_names : List String := [] ++ [attachment_name]
    { counter := st.counter + 1
      newAtts := st.newAtts ++ [{ a with name := attachment_name }]
      effects := st.effects ++ [.download 0 a.id, .updateAttachment 0 a.id attachment_name]
      updates := st.updates ++ [String.intercalate "," photo_names] }

/-- Embeds the per-record body of `rename_photos`
(culvert_assessment_data_admin.py lines 120-198) for one feature with id
label `featureId` and stored attachments `atts`. -/
def rename_photos (featureId : String) (atts : List Attachment) : RnState :=
  atts.foldl (rename_photos_step featureId)
    { counter := 1, newAtts := [], effects := [], updates := [] }

/-- `PHOTO_NAME` attribute after the queued updates are applied. -/
def fieldAfter (orig : String) (st : RnState) : String :=
  st.updates.getLastD orig

end CulvertAdmin

namespace BackupData

open AgoModel

theorem rename_fold_names (oid : Nat) (d : String) (atts : List Attachment) :
    ∀ st : RnState,
      ∃ suffix : List Attachment,
        (atts.foldl (rename_attachments_step oid d) st).newAtts = st.newAtts ++ suffix ∧
        (atts.foldl (rename_attachments_step oid d) st).photoNames =
          st.photoNames ++ (atts.zip suffix).filterMap
            (fun p => if pyStartsWith p.1.name (toString oid ++ "_" ++ d) then none
                      else some p.2.name) := by
  induction atts with
  | nil => intro st; exact ⟨[], by simp, by simp⟩
  | cons a rest ih =>
    intro st
    by_cases h : pyStartsWith a.name (toString oid ++ "_" ++ d)
    · obtain ⟨suffix, hn, hp⟩ := ih { st with newAtts := st.newAtts ++ [a] }
      refine ⟨a :: suffix, ?_, ?_⟩
      · simpa [List.foldl_cons, rename_attachments_step, h, List.append_assoc] using hn
      · simpa [List.foldl_cons, rename_attachments_step, h] using hp
    · obtain ⟨suffix, hn, hp⟩ :=
        ih (rename_attachments_step oid d st a)
      refine ⟨{ id := a.id,
                name := toString oid ++ "_" ++ d ++ "_" ++ toString st.counter ++ "." ++
                  fileTypeOf a.name } :: suffix, ?_, ?_⟩
      · simpa [rename_attachments_step, h, List.append_assoc] using hn
      · simp only [List.foldl_cons] at hp ⊢
        rw [hp]
        simp [rename_attachments_step, h, List.append_assoc]

theorem rename_fold_updates (oid : Nat) (d : String) (atts : List Attachment) :
    ∀ st : RnState,
      st.updates.getLast? =
        (if st.photoNames.isEmpty then none
         else some (String.intercalate "," st.photoNames)) →
      (atts.foldl (rename_attachments_step oid d) st).updates.getLast? =
        (if (atts.foldl (rename_attachments_step oid d) st).photoNames.isEmpty then none
         else some (String.intercalate ","
            (atts.foldl (rename_attachments_step oid d) st).photoNames)) := by
  induction atts with
  | nil => intro st h; simpa using h
  | cons a rest ih =>
    intro st h
    simp only [List.foldl_cons]
    by_cases hc : pyStartsWith a.name (toString oid ++ "_" ++ d)
    · exact ih _ (by simpa [rename_attachments_step, hc] using h)
    · refine ih _ ?_
      simp [rename_attachments_step, hc, List.getLast?_concat]

end BackupData

namespace HairSnag

open AgoModel

theorem rename_fold_updates_const (featureId origField : String)
    (atts : List Attachment) :
    ∀ st : RnState, st.updates.getLastD origField = origField →
      (atts.foldl (rename_attachments_step featureId origField) st).updates.getLastD
        origField = origField := by
  induction atts with
  | nil => intro st h; simpa using h
  | cons a rest ih =>
    intro st h
    simp only [List.foldl_cons]
    by_cases hc : pyStartsWith a.name featureId
    · exact ih _ (by simpa [rename_attachments_step, hc] using h)
    · refine ih _ ?_
      simp [rename_attachments_step, hc, List.getLastD_concat]

end HairSnag

namespace CulvertAdmin

open AgoModel

theorem intercalate_singleton (x : String) : String.intercalate "," [x] = x := rfl

theorem rename_fold_updates_names (featureId : String) (atts : List Attachment) :
    ∀ st : RnState,
      ∃ suffix : List Attachment,
        (atts.foldl (rename_photos_step featureId) st).newAtts = st.newAtts ++ suffix ∧
        (atts.foldl (rename_photos_step featureId) st).updates =
          st.updates ++ (atts.zip suffix).filterMap
            (fun p => if pyStartsWith p.1.name featureId then none else some p.2.name) := by
  induction atts with
  | nil => intro st; exact ⟨[], by simp, by simp⟩
  | cons a rest ih =>
    intro st
    by_cases h : pyStartsWith a.name featureId
    · obtain ⟨suffix, hn, hp⟩ := ih { st with newAtts := st.newAtts ++ [a] }
      refine ⟨a :: suffix, ?_, ?_⟩
      · simpa [List.foldl_cons, rename_photos_step, h, List.append_assoc] using hn
      · simpa [List.foldl_cons, rename_photos_step, h] using hp
    · obtain ⟨suffix, hn, hp⟩ := ih (rename_photos_step featureId st a)
      refine ⟨{ id := a.id,
                name := featureId ++ "_photo_" ++ toString st.counter ++ "." ++
                  fileTypeOf a.name } :: suffix, ?_, ?_⟩
      · simpa [rename_photos_step, h, List.append_assoc] using hn
      · simp only [List.foldl_cons] at hp ⊢
        rw [hp]
        simp [rename_photos_step, h, intercalate_singleton, List.append_assoc]

end CulvertAdmin

/-- C1 (amended): after a synchronizer run, in the badger backup variant the
`photo_name_list` contains the stored (post-rename) names of exactly the
attachments that were not already canonically named, in order, and the
record's `photo_name` field is rewritten to their comma-join only when at
least one attachment was renamed (already-canonical, skipped attachments
are omitted from the field; with no rename the field keeps its old
value); in the fisher variant the photo-name field is never modified; in
the culvert variant each queued update carries a single renamed name, so
the field ends as the last renamed name, not a list. -/
theorem C1_photo_name_field_amended (oid : Nat) (sightingDate orig : String)
    (atts : List AgoModel.Attachment) (fid forig : String)
    (fatts : List AgoModel.Attachment) (cid corig : String)
    (catts : List AgoModel.Attachment) :
    ((BackupData.rename_attachments oid sightingDate atts).photoNames =
      (atts.zip (BackupData.rename_attachments oid sightingDate atts).newAtts).filterMap
        (fun p => if BackupData.canonical oid (BackupData.clean_filename sightingDate) p.1
                  then none else some p.2.name) ∧
     BackupData.fieldAfter orig (BackupData.rename_attachments oid sightingDate atts) =
       (if (BackupData.rename_attachments oid sightingDate atts).photoNames.isEmpty then orig
        else String.intercalate ","
          (BackupData.rename_attachments oid sightingDate atts).photoNames)) ∧
    HairSnag.fieldAfter forig (HairSnag.rename_attachments fid forig fatts) = forig ∧
    ((CulvertAdmin.rename_photos cid catts).updates =
      (catts.zip (CulvertAdmin.rename_photos cid catts).newAtts).filterMap
        (fun p => if AgoModel.pyStartsWith p.1.name cid then none else some p.2.name) ∧
     CulvertAdmin.fieldAfter corig (CulvertAdmin.rename_photos cid catts) =
       ((CulvertAdmin.rename_photos cid catts).updates).getLastD corig) := by
  refine ⟨⟨?_, ?_⟩, ?_, ?_, rfl⟩
  · obtain ⟨suffix, hn, hp⟩ :=
      BackupData.rename_fold_names oid (BackupData.clean_filename sightingDate) atts
        { counter := 1, photoNames := [], newAtts := [], effects := [], updates := [] }
    unfold BackupData.rename_attachments
    rw [hp, hn]
    simp [BackupData.canonical]
  · have h := BackupData.rename_fold_updates oid (BackupData.clean_filename sightingDate) atts
      { counter := 1, photoNames := [], newAtts := [], effects := [], updates := [] } (by simp)
    unfold BackupData.rename_attachments BackupData.fieldAfter
    rw [List.getLastD_eq_getLast?, h]
    by_cases hpn :
      ((atts.foldl
        (BackupData.rename_attachments_step oid (BackupData.clean_filename sightingDate))
        { counter := 1, photoNames := [], newAtts := [], effects := [],
          updates := [] }).photoNames).isEmpty
    · simp [hpn]
    · simp [hpn]
  · exact HairSnag.rename_fold_updates_const fid forig fatts
      { counter := 1, newAtts := [], effects := [], updates := [] } (by simp)
  · obtain ⟨suffix, hn, hp⟩ := CulvertAdmin.rename_fold_updates_names cid catts
      { counter := 1, newAtts := [], effects := [], updates := [] }
    unfold CulvertAdmin.rename_photos
    rw [hp, hn]
    simp

/-- C1 counterexample: record 5 with sighting date `2024-01-01` has one
already-canonical attachment `5_2024-01-01_9.jpg` and one new `IMG001.jpg`;
after the run the store holds `5_2024-01-01_9.jpg` and `5_2024-01-01_1.jpg`
but the `photo_name` field is set to `5_2024-01-01_1.jpg` alone, not to the
comma-joined list of the stored canonical names, so the claimed invariant
fails. -/
theorem C1_photo_name_field_counterexample :
    BackupData.fieldAfter "old"
        (BackupData.rename_attachments 5 "2024-01-01"
          [⟨1, "5_2024-01-01_9.jpg"⟩, ⟨2, "IMG001.jpg"⟩]) = "5_2024-01-01_1.jpg" ∧
    ((BackupData.rename_attachments 5 "2024-01-01"
        [⟨1, "5_2024-01-01_9.jpg"⟩, ⟨2, "IMG001.jpg"⟩]).newAtts.map (·.name)) =
      ["5_2024-01-01_9.jpg", "5_2024-01-01_1.jpg"] ∧
    BackupData.fieldAfter "old"
        (BackupData.rename_attachments 5 "2024-01-01"
          [⟨1, "5_2024-01-01_9.jpg"⟩, ⟨2, "IMG001.jpg"⟩]) ≠
      String.intercalate ","
        ((BackupData.rename_attachments 5 "2024-01-01"
          [⟨1, "5_2024-01-01_9.jpg"⟩, ⟨2, "IMG001.jpg"⟩]).newAtts.map (·.name)) := by
  refine ⟨by decide, by decide, by decide⟩


namespace BackupData

open AgoModel

theorem new_name_canonical (oid : Nat) (d c ft : String) :
    pyStartsWith (toString oid ++ "_" ++ d ++ "_" ++ c ++ "." ++ ft)
      (toString oid ++ "_" ++ d) = true := by
  have h : toString oid ++ "_" ++ d ++ "_" ++ c ++ "." ++ ft =
      (toString oid ++ "_" ++ d) ++ ("_" ++ (c ++ ("." ++ ft))) := by
    simp [String.append_assoc]
  rw [h]
  exact pyStartsWith_append _ _

theorem rename_fold_skip_all (oid : Nat) (d : String) (atts : List Attachment) :
    ∀ st : RnState, (∀ a ∈ atts, pyStartsWith a.name (toString oid ++ "_" ++ d) = true) →
      atts.foldl (rename_attachments_step oid d) st =
        { st with newAtts := st.newAtts ++ atts } := by
  induction atts with
  | nil => intro st _; simp
  | cons a rest ih =>
    intro st h
    have ha : pyStartsWith a.name (toString oid ++ "_" ++ d) = true := h a (by simp)
    simp only [List.foldl_cons]
    rw [show rename_attachments_step oid d st a = { st with newAtts := st.newAtts ++ [a] }
      from by simp [rename_attachments_step, ha]]
    rw [ih _ (fun b hb => h b (by simp [hb]))]
    simp

theorem rename_fold_names_canonical (oid : Nat) (d : String) (atts : List Attachment) :
    ∀ st : RnState, ∀ b ∈ (atts.foldl (rename_attachments_step oid d) st).newAtts,
      b ∈ st.newAtts ∨ pyStartsWith b.name (toString oid ++ "_" ++ d) = true := by
  induction atts with
  | nil => intro st b hb; exact Or.inl (by simpa using hb)
  | cons a rest ih =>
    intro st b hb
    simp only [List.foldl_cons] at hb
    by_cases hc : pyStartsWith a.name (toString oid ++ "_" ++ d)
    · rcases ih _ b hb with hmem | hcan
      · have h2 : b ∈ st.newAtts ∨ b = a := by
          simpa [rename_attachments_step, hc] using hmem
        rcases h2 with h | h
        · exact Or.inl h
        · exact Or.inr (by rw [h]; exact hc)
      · exact Or.inr hcan
    · rcases ih _ b hb with hmem | hcan
      · have h2 : b ∈ st.newAtts ∨
            b = { a with
                  name := toString oid ++ "_" ++ d ++ "_" ++ toString st.counter ++ "." ++
                    fileTypeOf a.name } := by
          simpa [rename_attachments_step, hc] using hmem
        rcases h2 with h | h
        · exact Or.inl h
        · refine Or.inr ?_
          rw [h]
          exact new_name_canonical oid d (toString st.counter) (fileTypeOf a.name)
      · exact Or.inr hcan

theorem rename_fold_effects (oid : Nat) (d : String) (atts : List Attachment) :
    ∀ st : RnState, ∀ e ∈ (atts.foldl (rename_attachments_step oid d) st).effects,
      e ∈ st.effects ∨ ∃ a ∈ atts,
        pyStartsWith a.name (toString oid ++ "_" ++ d) = false ∧ e.attachIdOf = a.id := by
  induction atts with
  | nil => intro st e he; exact Or.inl (by simpa using he)
  | cons a rest ih =>
    intro st e he
    simp only [List.foldl_cons] at he
    by_cases hc : pyStartsWith a.name (toString oid ++ "_" ++ d)
    · rcases ih _ e he with hmem | ⟨b, hb, hball⟩
      · exact Or.inl (by simpa [rename_attachments_step, hc] using hmem)
      · exact Or.inr ⟨b, by simp [hb], hball⟩
    · rcases ih _ e he with hmem | ⟨b, hb, hball⟩
      · have h2 : e ∈ st.effects ∨ e = RnAction.download oid a.id ∨
            e = RnAction.updateAttachment oid a.id
              (toString oid ++ "_" ++ d ++ "_" ++ toString st.counter ++ "." ++
                fileTypeOf a.name) := by
          simpa [rename_attachments_step, hc] using hmem
        rcases h2 with h | h | h
        · exact Or.inl h
        · exact Or.inr ⟨a, by simp, by simpa using hc, by simp [h, RnAction.attachIdOf]⟩
        · exact Or.inr ⟨a, by simp, by simpa using hc, by simp [h, RnAction.attachIdOf]⟩
      · exact Or.inr ⟨b, by simp [hb], hball⟩

end BackupData

namespace HairSnag

open AgoModel

theorem hs_new_name_canonical (fid c ft : String) :
    pyStartsWith (fid ++ "_photo_" ++ c ++ "." ++ ft) fid = true := by
  have h : fid ++ "_photo_" ++ c ++ "." ++ ft = fid ++ ("_photo_" ++ (c ++ ("." ++ ft))) := by
    simp [String.append_assoc]
  rw [h]
  exact pyStartsWith_append _ _

theorem hs_rename_fold_skip_all (fid forig : String) (atts : List Attachment) :
    ∀ st : RnState, (∀ a ∈ atts, pyStartsWith a.name fid = true) →
      atts.foldl (rename_attachments_step fid forig) st =
        { st with newAtts := st.newAtts ++ atts } := by
  induction atts with
  | nil => intro st _; simp
  | cons a rest ih =>
    intro st h
    have ha : pyStartsWith a.name fid = true := h a (by simp)
    simp only [List.foldl_cons]
    rw [show rename_attachments_step fid forig st a = { st with newAtts := st.newAtts ++ [a] }
      from by simp [rename_attachments_step, ha]]
    rw [ih _ (fun b hb => h b (by simp [hb]))]
    simp

theorem hs_rename_fold_names_canonical (fid forig : String) (atts : List Attachment) :
    ∀ st : RnState, ∀ b ∈ (atts.foldl (rename_attachments_step fid forig) st).newAtts,
      b ∈ st.newAtts ∨ pyStartsWith b.name fid = true := by
  induction atts with
  | nil => intro st b hb; exact Or.inl (by simpa using hb)
  | cons a rest ih =>
    intro st b hb
    simp only [List.foldl_cons] at hb
    by_cases hc : pyStartsWith a.name fid
    · rcases ih _ b hb with hmem | hcan
      · have h2 : b ∈ st.newAtts ∨ b = a := by
          simpa [rename_attachments_step, hc] using hmem
        rcases h2 with h | h
        · exact Or.inl h
        · exact Or.inr (by rw [h]; exact hc)
      · exact Or.inr hcan
    · rcases ih _ b hb with hmem | hcan
      · have h2 : b ∈ st.newAtts ∨
            b = { a with
                  name := fid ++ "_photo_" ++ toString st.counter ++ "." ++
                    fileTypeOf a.name } := by
          simpa [rename_attachments_step, hc] using hmem
        rcases h2 with h | h
        · exact Or.inl h
        · refine Or.inr ?_
          rw [h]
          exact hs_new_name_canonical fid (toString st.counter) (fileTypeOf a.name)
      · exact Or.inr hcan

theorem hs_rename_fold_effects (fid forig : String) (atts : List Attachment) :
    ∀ st : RnState, ∀ e ∈ (atts.foldl (rename_attachments_step fid forig) st).effects,
      e ∈ st.effects ∨ ∃ a ∈ atts, pyStartsWith a.name fid = false ∧ e.attachIdOf = a.id := by
  induction atts with
  | nil => intro st e he; exact Or.inl (by simpa using he)
  | cons a rest ih =>
    intro st e he
    simp only [List.foldl_cons] at he
    by_cases hc : pyStartsWith a.name fid
    · rcases ih _ e he with hmem | ⟨b, hb, hball⟩
      · exact Or.inl (by simpa [rename_attachments_step, hc] using hmem)
      · exact Or.inr ⟨b, by simp [hb], hball⟩
    · rcases ih _ e he with hmem | ⟨b, hb, hball⟩
      · have h2 : e ∈ st.effects ∨ e = RnAction.download 0 a.id ∨
            e = RnAction.updateAttachment 0 a.id
              (fid ++ "_photo_" ++ toString st.counter ++ "." ++ fileTypeOf a.name) := by
          simpa [rename_attachments_step, hc] using hmem
        rcases h2 with h | h | h
        · exact Or.inl h
        · exact Or.inr ⟨a, by simp, by simpa using hc, by simp [h, RnAction.attachIdOf]⟩
        · exact Or.inr ⟨a, by simp, by simpa using hc, by simp [h, RnAction.attachIdOf]⟩
      · exact Or.inr ⟨b, by simp [hb], hball⟩

end HairSnag

/-- C5: attachment renaming is idempotent.  Every download/update effect of
a run belongs to an attachment that was not already canonically named; if
the attachment ids are distinct, an attachment whose stored name already
starts with the canonical prefix is touched by no effect at all; and a
second run over the attachments as stored after a first run performs zero
downloads and zero uploads.  Proved for the badger variant (prefix
`f"{oid}_{clean_sighting_date}"`) and the fisher variant (prefix
`feature_id`). -/
theorem C5_rename_idempotent (oid : Nat) (sightingDate : String)
    (atts : List AgoModel.Attachment) (fid forig : String)
    (fatts : List AgoModel.Attachment) :
    (∀ e ∈ (BackupData.rename_attachments oid sightingDate atts).effects,
      ∃ a ∈ atts,
        BackupData.canonical oid (BackupData.clean_filename sightingDate) a = false ∧
        e.attachIdOf = a.id) ∧
    ((atts.map (·.id)).Nodup → ∀ a ∈ atts,
      BackupData.canonical oid (BackupData.clean_filename sightingDate) a = true →
      ∀ e ∈ (BackupData.rename_attachments oid sightingDate atts).effects,
        e.attachIdOf ≠ a.id) ∧
    (BackupData.rename_attachments oid sightingDate
      (BackupData.rename_attachments oid sightingDate atts).newAtts).effects = [] ∧
    (∀ e ∈ (HairSnag.rename_attachments fid forig fatts).effects,
      ∃ a ∈ fatts, AgoModel.pyStartsWith a.name fid = false ∧ e.attachIdOf = a.id) ∧
    ((fatts.map (·.id)).Nodup → ∀ a ∈ fatts, AgoModel.pyStartsWith a.name fid = true →
      ∀ e ∈ (HairSnag.rename_attachments fid forig fatts).effects,
        e.attachIdOf ≠ a.id) ∧
    (HairSnag.rename_attachments fid forig
      (HairSnag.rename_attachments fid forig fatts).newAtts).effects = [] := by
  have hbEff : ∀ e ∈ (BackupData.rename_attachments oid sightingDate atts).effects,
      ∃ a ∈ atts,
        BackupData.canonical oid (BackupData.clean_filename sightingDate) a = false ∧
        e.attachIdOf = a.id := by
    intro e he
    rcases BackupData.rename_fold_effects oid (BackupData.clean_filename sightingDate) atts
        _ e he with hmem | ⟨a, ha, hfalse, hid⟩
    · simp at hmem
    · exact ⟨a, ha, by simpa [BackupData.canonical] using hfalse, hid⟩
  have hfEff : ∀ e ∈ (HairSnag.rename_attachments fid forig fatts).effects,
      ∃ a ∈ fatts, AgoModel.pyStartsWith a.name fid = false ∧ e.attachIdOf = a.id := by
    intro e he
    rcases HairSnag.hs_rename_fold_effects fid forig fatts _ e he with hmem | ⟨a, ha, hfalse, hid⟩
    · simp at hmem
    · exact ⟨a, ha, hfalse, hid⟩
  refine ⟨hbEff, ?_, ?_, hfEff, ?_, ?_⟩
  · intro hnodup a ha hcan e he hid
    obtain ⟨b, hb, hbfalse, hbid⟩ := hbEff e he
    have hab : a = b :=
      List.inj_on_of_nodup_map hnodup ha hb (by rw [← hid, hbid])
    rw [hab, hbfalse] at hcan
    exact Bool.false_ne_true hcan
  · have hcanAll : ∀ b ∈ (BackupData.rename_attachments oid sightingDate atts).newAtts,
        AgoModel.pyStartsWith b.name
          (toString oid ++ "_" ++ BackupData.clean_filename sightingDate) = true := by
      intro b hb
      rcases BackupData.rename_fold_names_canonical oid
          (BackupData.clean_filename sightingDate) atts _ b hb with hmem | hcan
      · simp at hmem
      · exact hcan
    have h := BackupData.rename_fold_skip_all oid (BackupData.clean_filename sightingDate)
      ((BackupData.rename_attachments oid sightingDate atts).newAtts)
      { counter := 1, photoNames := [], newAtts := [], effects := [], updates := [] } hcanAll
    show ((BackupData.rename_attachments oid sightingDate atts).newAtts.foldl
      (BackupData.rename_attachments_step oid (BackupData.clean_filename sightingDate))
      { counter := 1, photoNames := [], newAtts := [], effects := [], updates := [] }).effects = []
    rw [h]
  · intro hnodup a ha hcan e he hid
    obtain ⟨b, hb, hbfalse, hbid⟩ := hfEff e he
    have hab : a = b :=
      List.inj_on_of_nodup_map hnodup ha hb (by rw [← hid, hbid])
    rw [hab, hbfalse] at hcan
    exact Bool.false_ne_true hcan
  · have hcanAll : ∀ b ∈ (HairSnag.rename_attachments fid forig fatts).newAtts,
        AgoModel.pyStartsWith b.name fid = true := by
      intro b hb
      rcases HairSnag.hs_rename_fold_names_canonical fid forig fatts _ b hb with hmem | hcan
      · simp at hmem
      · exact hcan
    have h := HairSnag.hs_rename_fold_skip_all fid forig
      ((HairSnag.rename_attachments fid forig fatts).newAtts)
      { counter := 1, newAtts := [], effects := [], updates := [] } hcanAll
    show ((HairSnag.rename_attachments fid forig fatts).newAtts.foldl
      (HairSnag.rename_attachments_step fid forig)
      { counter := 1, newAtts := [], effects := [], updates := [] }).effects = []
    rw [h]

/-- C5 witness: record 5 (sighting date `2024-01-01`) with the canonical
attachment id 1 and the non-canonical `IMG001.jpg` id 2: no effect of the
run touches id 1, the one download effect belongs to the non-canonical
id 2, and a second badger run (and a fisher run over an already-renamed
store) performs zero effects. -/
theorem C5_rename_idempotent_witness :
    (∃ a ∈ [(⟨1, "5_2024-01-01_1.jpg"⟩ : AgoModel.Attachment), ⟨2, "IMG001.jpg"⟩],
      BackupData.canonical 5 (BackupData.clean_filename "2024-01-01") a = false ∧
      (AgoModel.RnAction.download 5 2).attachIdOf = a.id) ∧
    (∀ e ∈ (BackupData.rename_attachments 5 "2024-01-01"
        [⟨1, "5_2024-01-01_1.jpg"⟩, ⟨2, "IMG001.jpg"⟩]).effects, e.attachIdOf ≠ 1) ∧
    (BackupData.rename_attachments 5 "2024-01-01"
      (BackupData.rename_attachments 5 "2024-01-01"
        [⟨1, "5_2024-01-01_1.jpg"⟩, ⟨2, "IMG001.jpg"⟩]).newAtts).effects = [] ∧
    (HairSnag.rename_attachments "F01" "orig"
      (HairSnag.rename_attachments "F01" "orig" [⟨1, "DSC100.jpg"⟩]).newAtts).effects = [] := by
  refine ⟨?_, ?_, ?_, ?_⟩
  · exact (C5_rename_idempotent 5 "2024-01-01"
      [⟨1, "5_2024-01-01_1.jpg"⟩, ⟨2, "IMG001.jpg"⟩] "F01" "orig" [⟨1, "DSC100.jpg"⟩]).1
      (.download 5 2) (by decide)
  · exact (C5_rename_idempotent 5 "2024-01-01"
      [⟨1, "5_2024-01-01_1.jpg"⟩, ⟨2, "IMG001.jpg"⟩] "F01" "orig" [⟨1, "DSC100.jpg"⟩]).2.1
      (by decide) ⟨1, "5_2024-01-01_1.jpg"⟩ (by decide) (by decide)
  · exact (C5_rename_idempotent 5 "2024-01-01"
      [⟨1, "5_2024-01-01_1.jpg"⟩, ⟨2, "IMG001.jpg"⟩] "F01" "orig" [⟨1, "DSC100.jpg"⟩]).2.2.1
  · exact (C5_rename_idempotent 5 "2024-01-01"
      [⟨1, "5_2024-01-01_1.jpg"⟩, ⟨2, "IMG001.jpg"⟩] "F01" "orig" [⟨1, "DSC100.jpg"⟩]).2.2.2.2.2

/-! ## Status rollup models -/

namespace AgoModel

/-- `df.sort_values(by=ts, ascending=False).iloc[0]`: the first row of the
descending sort is a row attaining the maximal timestamp; among equal
timestamps pandas' unstable sort leaves the pick unspecified, and this
model keeps the first maximal element. -/
def latestBy {α : Type} (ts : α → Int) (h : α) (t : List α) : α :=
  t.foldl (fun best x => if ts best < ts x then x else best) h

theorem latestBy_mem {α : Type} (ts : α → Int) (h : α) (t : List α) :
    latestBy ts h t ∈ h :: t := by
  induction t generalizing h with
  | nil => simp [latestBy]
  | cons x xs ih =>
    unfold latestBy
    rw [List.foldl_cons]
    by_cases hlt : ts h < ts x
    · rw [if_pos hlt]
      exact List.mem_cons_of_mem h (ih x)
    · rw [if_neg hlt]
      rcases List.mem_cons.mp (ih h) with h1 | h1
      · exact List.mem_cons.mpr (Or.inl h1)
      · exact List.mem_cons_of_mem h (List.mem_cons_of_mem x h1)

theorem latestBy_max {α : Type} (ts : α → Int) (h : α) (t : List α) :
    ∀ x ∈ h :: t, ts x ≤ ts (latestBy ts h t) := by
  induction t generalizing h with
  | nil => intro x hx; simp at hx; simp [latestBy, hx]
  | cons y ys ih =>
    intro x hx
    unfold latestBy
    rw [List.foldl_cons]
    by_cases hlt : ts h < ts y
    · simp only [if_pos hlt]
      rcases List.mem_cons.mp hx with h1 | h1
      · calc ts x ≤ ts y := by rw [h1]; exact le_of_lt hlt
          _ ≤ ts (latestBy ts y ys) := ih y y (by simp)
      · rcases List.mem_cons.mp h1 with h2 | h2
        · exact ih y x (by simp [h2])
        · exact ih y x (by simp [h2])
    · simp only [if_neg hlt]
      rcases List.mem_cons.mp hx with h1 | h1
      · exact ih h x (by simp [h1])
      · rcases List.mem_cons.mp h1 with h2 | h2
        · calc ts x ≤ ts h := by rw [h2]; exact le_of_not_lt hlt
            _ ≤ ts (latestBy ts h ys) := ih h h (by simp)
        · exact ih h x (by simp [h2])

/-- A loop of the shape `for x in l: if ...: acc.append(...)` emits exactly
the `filterMap` of its per-element decision. -/
theorem foldl_emits {α β : Type} (step : List β → α → List β) (g : α → Option β)
    (hstep : ∀ acc x, step acc x = acc ++ (g x).toList) (l : List α) :
    ∀ acc : List β, l.foldl step acc = acc ++ l.filterMap g := by
  induction l with
  | nil => intro acc; simp
  | cons x xs ih =>
    intro acc
    rw [List.foldl_cons, hstep, ih, List.filterMap_cons]
    cases g x <;> simp [Option.toList]

/-- In a `filterMap` whose emitted entries carry their source's key, a key
occurs among the emitted entries exactly when the decision fires for the
(unique) element with that key. -/
theorem filterMap_key_iff {α β γ : Type} [DecidableEq γ] (key : α → γ) (keyOf : β → γ)
    (g : α → Option β) (hkey : ∀ a b, g a = some b → keyOf b = key a)
    (l : List α) (hnodup : (l.map key).Nodup) (x : α) (hx : x ∈ l) :
    (∃ u ∈ l.filterMap g, keyOf u = key x) ↔ ∃ u, g x = some u := by
  constructor
  · rintro ⟨u, hu, hku⟩
    obtain ⟨a, ha, hga⟩ := List.mem_filterMap.mp hu
    have hk : keyOf u = key a := hkey a u hga
    have hax : a = x := List.inj_on_of_nodup_map hnodup ha hx (by rw [← hk, hku])
    exact ⟨u, hax ▸ hga⟩
  · rintro ⟨u, hgx⟩
    exact ⟨u, List.mem_filterMap.mpr ⟨x, hx, hgx⟩, hkey x u hgx⟩

end AgoModel

/-! ## Status rollup, camera variant:
`badger_scripts/camera_check_data_admin.update_camera_check_completion` -/

namespace CameraCheck

open AgoModel

/-- A camera point feature: its unique id and `CHECK_COMPLETE` value
(missing modelled as `none`). -/
structure CameraPoint where
  PROJ_UNIQUE_ID : String
  CHECK_COMPLETE : Option String
  deriving Repr, DecidableEq

/-- A row of the related camera check table. -/
structure CameraCheckRow where
  PROJ_UNIQUE_ID : String
  DATETIME_ASSESSED : Int
  CHECK_COMPLETE : Option String
  deriving Repr, DecidableEq

/-- The per-camera decision of `update_camera_check_completion`
(camera_check_data_admin.py lines 142-170): the related checks are the
table rows with matching `PROJ_UNIQUE_ID`; no check ⇒ `continue`;
otherwise the check with the maximal `DATETIME_ASSESSED` is taken and an
update queued iff its `CHECK_COMPLETE` differs from the camera's. -/
def cameraDecision (checks : List CameraCheckRow) (camera : CameraPoint) :
    Option (String × Option String) :=
  match checks.filter (fun c => c.PROJ_UNIQUE_ID == camera.PROJ_UNIQUE_ID) with
  | [] => none
  | h :: t =>
    if camera.CHECK_COMPLETE ≠ (latestBy (·.DATETIME_ASSESSED) h t).CHECK_COMPLETE then
      some (camera.PROJ_UNIQUE_ID, (latestBy (·.DATETIME_ASSESSED) h t).CHECK_COMPLETE)
    else none

/-- Embeds `update_camera_check_completion` (camera_check_data_admin.py
lines 134-174): the loop over the camera points accumulates
`features_for_update`; each queued update is represented by the camera's
id and the new `CHECK_COMPLETE` value written onto the feature copy. -/
def update_camera_check_completion (points : List CameraPoint)
    (checks : List CameraCheckRow) : List (String × Option String) :=
  points.foldl
    (fun acc camera =>
      match checks.filter (fun c => c.PROJ_UNIQUE_ID == camera.PROJ_UNIQUE_ID) with
      | [] => acc
      | h :: t =>
        if camera.CHECK_COMPLETE ≠ (latestBy (·.DATETIME_ASSESSED) h t).CHECK_COMPLETE then
          acc ++ [(camera.PROJ_UNIQUE_ID, (latestBy (·.DATETIME_ASSESSED) h t).CHECK_COMPLETE)]
        else acc)
    []

theorem update_camera_eq_filterMap (points : List CameraPoint)
    (checks : List CameraCheckRow) :
    update_camera_check_completion points checks = points.filterMap (cameraDecision checks) := by
  unfold update_camera_check_completion
  rw [foldl_emits _ (cameraDecision checks) ?_ points []]
  · simp
  · intro acc camera
    unfold cameraDecision
    cases checks.filter (fun c => c.PROJ_UNIQUE_ID == camera.PROJ_UNIQUE_ID) with
    | nil => simp
    | cons h t =>
      by_cases hc :
        camera.CHECK_COMPLETE ≠ (latestBy (·.DATETIME_ASSESSED) h t).CHECK_COMPLETE <;>
        simp [hc, Option.toList]

theorem cameraDecision_key (checks : List CameraCheckRow) (camera : CameraPoint)
    (u : String × Option String) (h : cameraDecision checks camera = some u) :
    u.1 = camera.PROJ_UNIQUE_ID := by
  unfold cameraDecision at h
  split at h
  · simp at h
  · split at h
    · cases h; rfl
    · simp at h

end CameraCheck

/-! ## Status rollup, cubby variant:
`fisher_scripts/hair_snag_data_modification.update_cubby_status` -/

namespace HairSnag

open AgoModel

/-- A cubby location feature: unique `SITE_ID` and `SITE_STATUS` value. -/
structure CubbyLoc where
  SITE_ID : String
  SITE_STATUS : Option String
  deriving Repr, DecidableEq

/-- A row of the related cubby check table. -/
structure CubbyCheck where
  SITE_ID : String
  START_DATE : Int
  SITE_STATUS : Option String
  deriving Repr, DecidableEq

/-- The per-cubby decision of `update_cubby_status`
(hair_snag_data_modification.py lines 61-86): checks with matching
`SITE_ID`; none ⇒ `continue`; otherwise the check with the maximal
`START_DATE` is taken and an update queued iff its `SITE_STATUS` differs
from the location's. -/
def cubbyDecision (checks : List CubbyCheck) (cubby : CubbyLoc) :
    Option (String × Option String) :=
  match checks.filter (fun c => c.SITE_ID == cubby.SITE_ID) with
  | [] => none
  | h :: t =>
    if cubby.SITE_STATUS ≠ (latestBy (·.START_DATE) h t).SITE_STATUS then
      some (cubby.SITE_ID, (latestBy (·.START_DATE) h t).SITE_STATUS)
    else none

/-- Embeds `update_cubby_status` (hair_snag_data_modification.py lines
55-90): the loop over the cubby locations accumulates
`features_for_update`; each queued update is represented by the
location's `SITE_ID` and the `SITE_STATUS` written onto the copy. -/
def update_cubby_status (locs : List CubbyLoc) (checks : List CubbyCheck) :
    List (String × Option String) :=
  locs.foldl
    (fun acc cubby =>
      match checks.filter (fun c => c.SITE_ID == cubby.SITE_ID) with
      | [] => acc
      | h :: t =>
        if cubby.SITE_STATUS ≠ (latestBy (·.START_DATE) h t).SITE_STATUS then
          acc ++ [(cubby.SITE_ID, (latestBy (·.START_DATE) h t).SITE_STATUS)]
        else acc)
    []

theorem update_cubby_eq_filterMap (locs : List CubbyLoc) (checks : List CubbyCheck) :
    update_cubby_status locs checks = locs.filterMap (cubbyDecision checks) := by
  unfold update_cubby_status
  rw [foldl_emits _ (cubbyDecision checks) ?_ locs []]
  · simp
  · intro acc cubby
    unfold cubbyDecision
    cases checks.filter (fun c => c.SITE_ID == cubby.SITE_ID) with
    | nil => simp
    | cons h t =>
      by_cases hc : cubby.SITE_STATUS ≠ (latestBy (·.START_DATE) h t).SITE_STATUS <;>
        simp [hc, Option.toList]

theorem cubbyDecision_key (checks : List CubbyCheck) (cubby : CubbyLoc)
    (u : String × Option String) (h : cubbyDecision checks cubby = some u) :
    u.1 = cubby.SITE_ID := by
  unfold cubbyDecision at h
  split at h
  · simp at h
  · split at h
    · cases h; rfl
    · simp at h

end HairSnag

/-! ## Status rollup, culvert variant:
`badger_scripts/culvert_assessment_data_admin.update_ago_data` -/

namespace CulvertAdmin

open AgoModel

/-- A culvert location row: its `OBJECTID` and the value of the field being
rolled up (`MACHINE_EXCAV_REQ`, `UNDERPASS_PRIORITY` or
`LANDSCAPE_CONNECT`); a pandas-missing value is `none`. -/
structure CulvertLoc where
  OBJECTID : Int
  value : Option String
  deriving Repr, DecidableEq

/-- A related culvert assessment record (reached through
`query_related_records`): the id of its parent location, its
`DATE_ASSESSED`, and its value of the rolled-up field. -/
structure CulvertAssessment where
  parentOid : Int
  DATE_ASSESSED : Int
  value : Option String
  deriving Repr, DecidableEq

/-- The per-location decision of `update_ago_data`
(culvert_assessment_data_admin.py lines 76-107): the related assessments
of the location; none ⇒ `continue`; otherwise the assessment with the
maximal `DATE_ASSESSED` is taken and an update queued iff
`pd.isna(loc_value) or loc_value != assessment_value` — i.e. when the
location's value is missing or differs. -/
def culvertDecision (related : List CulvertAssessment) (loc : CulvertLoc) :
    Option (Int × Option String) :=
  match related.filter (fun r => r.parentOid == loc.OBJECTID) with
  | [] => none
  | h :: t =>
    if loc.value.isNone || decide (loc.value ≠ (latestBy (·.DATE_ASSESSED) h t).value) then
      some (loc.OBJECTID, (latestBy (·.DATE_ASSESSED) h t).value)
    else none

/-- Embeds `update_ago_data` (culvert_assessment_data_admin.py lines
65-118): the loop over the culvert locations accumulates
`features_for_update`; each queued update is represented by the
location's `OBJECTID` and the assessment value written onto the copy. -/
def update_ago_data (locs : List CulvertLoc) (related : List CulvertAssessment) :
    List (Int × Option String) :=
  locs.foldl
    (fun acc loc =>
      match related.filter (fun r => r.parentOid == loc.OBJECTID) with
      | [] => acc
      | h :: t =>
        if loc.value.isNone || decide (loc.value ≠ (latestBy (·.DATE_ASSESSED) h t).value) then
          acc ++ [(loc.OBJECTID, (latestBy (·.DATE_ASSESSED) h t).value)]
        else acc)
    []

theorem update_ago_eq_filterMap (locs : List CulvertLoc)
    (related : List CulvertAssessment) :
    update_ago_data locs related = locs.filterMap (culvertDecision related) := by
  unfold update_ago_data
  rw [foldl_emits _ (culvertDecision related) ?_ locs []]
  · simp
  · intro acc loc
    unfold culvertDecision
    cases related.filter (fun r => r.parentOid == loc.OBJECTID) with
    | nil => simp
    | cons h t =>
      by_cases hc :
        loc.value = none ∨ ¬loc.value = (latestBy (·.DATE_ASSESSED) h t).value <;>
        simp [hc, Option.toList]

theorem culvertDecision_key (related : List CulvertAssessment) (loc : CulvertLoc)
    (u : Int × Option String) (h : culvertDecision related loc = some u) :
    u.1 = loc.OBJECTID := by
  unfold culvertDecision at h
  split at h
  · simp at h
  · split at h
    · cases h; rfl
    · simp at h

end CulvertAdmin

namespace AgoModel

/-- When the decision does not fire for the unique element with a key, no
emitted entry carries that key. -/
theorem filterMap_key_none {α β γ : Type} [DecidableEq γ] (key : α → γ) (keyOf : β → γ)
    (g : α → Option β) (hkey : ∀ a b, g a = some b → keyOf b = key a)
    (l : List α) (hnodup : (l.map key).Nodup) (x : α) (hx : x ∈ l)
    (hgx : g x = none) : ∀ u ∈ l.filterMap g, keyOf u ≠ key x := by
  intro u hu hku
  obtain ⟨a, ha, hga⟩ := List.mem_filterMap.mp hu
  have hk : keyOf u = key a := hkey a u hga
  have hax : a = x := List.inj_on_of_nodup_map hnodup ha hx (by rw [← hk, hku])
  rw [hax, hgx] at hga
  cases hga

end AgoModel

namespace CameraCheck

open AgoModel

theorem cameraDecision_of_filter_nil (checks : List CameraCheckRow) (camera : CameraPoint)
    (hf : checks.filter (fun c => c.PROJ_UNIQUE_ID == camera.PROJ_UNIQUE_ID) = []) :
    cameraDecision checks camera = none := by
  unfold cameraDecision
  rw [hf]

theorem cameraDecision_of_filter_cons (checks : List CameraCheckRow) (camera : CameraPoint)
    (h : CameraCheckRow) (t : List CameraCheckRow)
    (hf : checks.filter (fun c => c.PROJ_UNIQUE_ID == camera.PROJ_UNIQUE_ID) = h :: t) :
    cameraDecision checks camera =
      (if camera.CHECK_COMPLETE ≠ (latestBy (·.DATETIME_ASSESSED) h t).CHECK_COMPLETE then
        some (camera.PROJ_UNIQUE_ID, (latestBy (·.DATETIME_ASSESSED) h t).CHECK_COMPLETE)
      else none) := by
  unfold cameraDecision
  rw [hf]

end CameraCheck

namespace HairSnag

open AgoModel

theorem cubbyDecision_of_filter_nil (checks : List CubbyCheck) (cubby : CubbyLoc)
    (hf : checks.filter (fun c => c.SITE_ID == cubby.SITE_ID) = []) :
    cubbyDecision checks cubby = none := by
  unfold cubbyDecision
  rw [hf]

theorem cubbyDecision_of_filter_cons (checks : List CubbyCheck) (cubby : CubbyLoc)
    (h : CubbyCheck) (t : List CubbyCheck)
    (hf : checks.filter (fun c => c.SITE_ID == cubby.SITE_ID) = h :: t) :
    cubbyDecision checks cubby =
      (if cubby.SITE_STATUS ≠ (latestBy (·.START_DATE) h t).SITE_STATUS then
        some (cubby.SITE_ID, (latestBy (·.START_DATE) h t).SITE_STATUS)
      else none) := by
  unfold cubbyDecision
  rw [hf]

end HairSnag

namespace CulvertAdmin

open AgoModel

theorem culvertDecision_of_filter_nil (related : List CulvertAssessment) (loc : CulvertLoc)
    (hf : related.filter (fun r => r.parentOid == loc.OBJECTID) = []) :
    culvertDecision related loc = none := by
  unfold culvertDecision
  rw [hf]

theorem culvertDecision_of_filter_cons (related : List CulvertAssessment) (loc : CulvertLoc)
    (h : CulvertAssessment) (t : List CulvertAssessment)
    (hf : related.filter (fun r => r.parentOid == loc.OBJECTID) = h :: t) :
    culvertDecision related loc =
      (if loc.value.isNone || decide (loc.value ≠ (latestBy (·.DATE_ASSESSED) h t).value) then
        some (loc.OBJECTID, (latestBy (·.DATE_ASSESSED) h t).value)
      else none) := by
  unfold culvertDecision
  rw [hf]

end CulvertAdmin

/-- C4 (amended): for each parent with at least one matching child, the
rollup selects a child attaining the maximum of the designated timestamp
field; for the camera and cubby variants an update for that parent is
emitted exactly when the designated status field differs between parent
and that child, while the culvert variant emits an update exactly when
the parent's field is missing (`pd.isna`) or differs from the child's;
for a parent with zero matching children no update is emitted and no
error is raised (the run is total). -/
theorem C4_rollup_update_iff
    (pts : List CameraCheck.CameraPoint) (checks : List CameraCheck.CameraCheckRow)
    (cam : CameraCheck.CameraPoint)
    (hnodupP : (pts.map (·.PROJ_UNIQUE_ID)).Nodup) (hcam : cam ∈ pts)
    (cubs : List HairSnag.CubbyLoc) (cchecks : List HairSnag.CubbyCheck)
    (cub : HairSnag.CubbyLoc)
    (hnodupS : (cubs.map (·.SITE_ID)).Nodup) (hcub : cub ∈ cubs)
    (clocs : List CulvertAdmin.CulvertLoc) (rel : List CulvertAdmin.CulvertAssessment)
    (loc : CulvertAdmin.CulvertLoc)
    (hnodupL : (clocs.map (·.OBJECTID)).Nodup) (hloc : loc ∈ clocs) :
    ((checks.filter (fun c => c.PROJ_UNIQUE_ID == cam.PROJ_UNIQUE_ID) = [] →
       ∀ u ∈ CameraCheck.update_camera_check_completion pts checks,
         u.1 ≠ cam.PROJ_UNIQUE_ID) ∧
     (∀ h t, checks.filter (fun c => c.PROJ_UNIQUE_ID == cam.PROJ_UNIQUE_ID) = h :: t →
       (AgoModel.latestBy (·.DATETIME_ASSESSED) h t ∈ h :: t ∧
        ∀ c ∈ h :: t, c.DATETIME_ASSESSED ≤
          (AgoModel.latestBy (·.DATETIME_ASSESSED) h t).DATETIME_ASSESSED) ∧
       ((∃ u ∈ CameraCheck.update_camera_check_completion pts checks,
           u.1 = cam.PROJ_UNIQUE_ID) ↔
         cam.CHECK_COMPLETE ≠
           (AgoModel.latestBy (·.DATETIME_ASSESSED) h t).CHECK_COMPLETE))) ∧
    ((cchecks.filter (fun c => c.SITE_ID == cub.SITE_ID) = [] →
       ∀ u ∈ HairSnag.update_cubby_status cubs cchecks, u.1 ≠ cub.SITE_ID) ∧
     (∀ h t, cchecks.filter (fun c => c.SITE_ID == cub.SITE_ID) = h :: t →
       (AgoModel.latestBy (·.START_DATE) h t ∈ h :: t ∧
        ∀ c ∈ h :: t, c.START_DATE ≤ (AgoModel.latestBy (·.START_DATE) h t).START_DATE) ∧
       ((∃ u ∈ HairSnag.update_cubby_status cubs cchecks, u.1 = cub.SITE_ID) ↔
         cub.SITE_STATUS ≠ (AgoModel.latestBy (·.START_DATE) h t).SITE_STATUS))) ∧
    ((rel.filter (fun r => r.parentOid == loc.OBJECTID) = [] →
       ∀ u ∈ CulvertAdmin.update_ago_data clocs rel, u.1 ≠ loc.OBJECTID) ∧
     (∀ h t, rel.filter (fun r => r.parentOid == loc.OBJECTID) = h :: t →
       (AgoModel.latestBy (·.DATE_ASSESSED) h t ∈ h :: t ∧
        ∀ c ∈ h :: t, c.DATE_ASSESSED ≤
          (AgoModel.latestBy (·.DATE_ASSESSED) h t).DATE_ASSESSED) ∧
       ((∃ u ∈ CulvertAdmin.update_ago_data clocs rel, u.1 = loc.OBJECTID) ↔
         (loc.value = none ∨
           loc.value ≠ (AgoModel.latestBy (·.DATE_ASSESSED) h t).value)))) := by
  refine ⟨⟨?_, ?_⟩, ⟨?_, ?_⟩, ⟨?_, ?_⟩⟩
  · intro hempty
    rw [CameraCheck.update_camera_eq_filterMap]
    exact AgoModel.filterMap_key_none _ Prod.fst _
      (fun a b => CameraCheck.cameraDecision_key checks a b) pts hnodupP cam hcam
      (CameraCheck.cameraDecision_of_filter_nil checks cam hempty)
  · intro h t hft
    refine ⟨⟨AgoModel.latestBy_mem _ h t, AgoModel.latestBy_max _ h t⟩, ?_⟩
    rw [CameraCheck.update_camera_eq_filterMap]
    rw [AgoModel.filterMap_key_iff _ Prod.fst _
      (fun a b => CameraCheck.cameraDecision_key checks a b) pts hnodupP cam hcam]
    rw [CameraCheck.cameraDecision_of_filter_cons checks cam h t hft]
    constructor
    · rintro ⟨u, hu⟩
      by_cases hc : cam.CHECK_COMPLETE ≠
          (AgoModel.latestBy (·.DATETIME_ASSESSED) h t).CHECK_COMPLETE
      · exact hc
      · rw [if_neg hc] at hu
        cases hu
    · intro hne
      exact ⟨_, by rw [if_pos hne]⟩
  · intro hempty
    rw [HairSnag.update_cubby_eq_filterMap]
    exact AgoModel.filterMap_key_none _ Prod.fst _
      (fun a b => HairSnag.cubbyDecision_key cchecks a b) cubs hnodupS cub hcub
      (HairSnag.cubbyDecision_of_filter_nil cchecks cub hempty)
  · intro h t hft
    refine ⟨⟨AgoModel.latestBy_mem _ h t, AgoModel.latestBy_max _ h t⟩, ?_⟩
    rw [HairSnag.update_cubby_eq_filterMap]
    rw [AgoModel.filterMap_key_iff _ Prod.fst _
      (fun a b => HairSnag.cubbyDecision_key cchecks a b) cubs hnodupS cub hcub]
    rw [HairSnag.cubbyDecision_of_filter_cons cchecks cub h t hft]
    constructor
    · rintro ⟨u, hu⟩
      by_cases hc : cub.SITE_STATUS ≠ (AgoModel.latestBy (·.START_DATE) h t).SITE_STATUS
      · exact hc
      · rw [if_neg hc] at hu
        cases hu
    · intro hne
      exact ⟨_, by rw [if_pos hne]⟩
  · intro hempty
    rw [CulvertAdmin.update_ago_eq_filterMap]
    exact AgoModel.filterMap_key_none _ Prod.fst _
      (fun a b => CulvertAdmin.culvertDecision_key rel a b) clocs hnodupL loc hloc
      (CulvertAdmin.culvertDecision_of_filter_nil rel loc hempty)
  · intro h t hft
    refine ⟨⟨AgoModel.latestBy_mem _ h t, AgoModel.latestBy_max _ h t⟩, ?_⟩
    rw [CulvertAdmin.update_ago_eq_filterMap]
    rw [AgoModel.filterMap_key_iff _ Prod.fst _
      (fun a b => CulvertAdmin.culvertDecision_key rel a b) clocs hnodupL loc hloc]
    rw [CulvertAdmin.culvertDecision_of_filter_cons rel loc h t hft]
    constructor
    · rintro ⟨u, hu⟩
      by_cases hc : (loc.value.isNone ||
          decide (loc.value ≠ (AgoModel.latestBy (·.DATE_ASSESSED) h t).value)) = true
      · rcases Bool.or_eq_true_iff.mp hc with h1 | h1
        · exact Or.inl (Option.isNone_iff_eq_none.mp h1)
        · exact Or.inr (of_decide_eq_true h1)
      · rw [if_neg (by simpa using hc)] at hu
        cases hu
    · intro hor
      have hc : (loc.value.isNone ||
          decide (loc.value ≠ (AgoModel.latestBy (·.DATE_ASSESSED) h t).value)) = true := by
        rcases hor with h1 | h1
        · simp [h1]
        · simp [h1]
      exact ⟨_, by rw [if_pos hc]⟩

/-- C4 counterexample: a culvert location whose rolled-up field is missing
(`None`) and whose only assessment also carries a missing value: the
designated status field does not differ between parent and latest child
(both are missing), yet `update_ago_data` emits an update for the parent
because of the `pd.isna(loc_value)` disjunct — refuting "an update is
emitted exactly when the field differs". -/
theorem C4_rollup_counterexample :
    (⟨1, none⟩ : CulvertAdmin.CulvertLoc).value =
      (AgoModel.latestBy (·.DATE_ASSESSED)
        (⟨1, 100, none⟩ : CulvertAdmin.CulvertAssessment) []).value ∧
    CulvertAdmin.update_ago_data [⟨1, none⟩] [⟨1, 100, none⟩] = [(1, none)] := by
  exact ⟨rfl, by decide⟩

/-- C4 witness: cameras A (status `No`, checked `No` then later `Yes`) and B
(no checks): an update keyed to A is emitted (latest check differs) and no
update keyed to B is emitted. -/
theorem C4_rollup_update_iff_witness :
    (∃ u ∈ CameraCheck.update_camera_check_completion
        [⟨"A", some "No"⟩, ⟨"B", some "No"⟩]
        [⟨"A", 1, some "No"⟩, ⟨"A", 2, some "Yes"⟩], u.1 = "A") ∧
    (∀ u ∈ CameraCheck.update_camera_check_completion
        [⟨"A", some "No"⟩, ⟨"B", some "No"⟩]
        [⟨"A", 1, some "No"⟩, ⟨"A", 2, some "Yes"⟩], u.1 ≠ "B") := by
  constructor
  · exact ((C4_rollup_update_iff
      [⟨"A", some "No"⟩, ⟨"B", some "No"⟩]
      [⟨"A", 1, some "No"⟩, ⟨"A", 2, some "Yes"⟩] ⟨"A", some "No"⟩
      (by decide) (by decide)
      [⟨"S", none⟩] [] ⟨"S", none⟩ (by decide) (by decide)
      [⟨1, none⟩] [] ⟨1, none⟩ (by decide) (by decide)).1.2
      ⟨"A", 1, some "No"⟩ [⟨"A", 2, some "Yes"⟩] (by decide)).2.mpr (by decide)
  · exact (C4_rollup_update_iff
      [⟨"A", some "No"⟩, ⟨"B", some "No"⟩]
      [⟨"A", 1, some "No"⟩, ⟨"A", 2, some "Yes"⟩] ⟨"B", some "No"⟩
      (by decide) (by decide)
      [⟨"S", none⟩] [] ⟨"S", none⟩ (by decide) (by decide)
      [⟨1, none⟩] [] ⟨1, none⟩ (by decide) (by decide)).1.1 (by decide)

/-- C6 (amended): once a parent's designated status field equals that of
its most-recently-dated child, a rollup run emits no update for that
parent — unconditionally in the camera and cubby variants, and provided
the parent's field is present (non-missing) in the culvert variant,
whose `pd.isna` disjunct re-emits an update for a missing parent field
even when the child's field is missing too. -/
theorem C6_rollup_idempotent
    (pts : List CameraCheck.CameraPoint) (checks : List CameraCheck.CameraCheckRow)
    (cam : CameraCheck.CameraPoint)
    (hnodupP : (pts.map (·.PROJ_UNIQUE_ID)).Nodup) (hcam : cam ∈ pts)
    (cubs : List HairSnag.CubbyLoc) (cchecks : List HairSnag.CubbyCheck)
    (cub : HairSnag.CubbyLoc)
    (hnodupS : (cubs.map (·.SITE_ID)).Nodup) (hcub : cub ∈ cubs)
    (clocs : List CulvertAdmin.CulvertLoc) (rel : List CulvertAdmin.CulvertAssessment)
    (loc : CulvertAdmin.CulvertLoc)
    (hnodupL : (clocs.map (·.OBJECTID)).Nodup) (hloc : loc ∈ clocs) :
    (∀ h t, checks.filter (fun c => c.PROJ_UNIQUE_ID == cam.PROJ_UNIQUE_ID) = h :: t →
      cam.CHECK_COMPLETE = (AgoModel.latestBy (·.DATETIME_ASSESSED) h t).CHECK_COMPLETE →
      ∀ u ∈ CameraCheck.update_camera_check_completion pts checks,
        u.1 ≠ cam.PROJ_UNIQUE_ID) ∧
    (∀ h t, cchecks.filter (fun c => c.SITE_ID == cub.SITE_ID) = h :: t →
      cub.SITE_STATUS = (AgoModel.latestBy (·.START_DATE) h t).SITE_STATUS →
      ∀ u ∈ HairSnag.update_cubby_status cubs cchecks, u.1 ≠ cub.SITE_ID) ∧
    (∀ h t, rel.filter (fun r => r.parentOid == loc.OBJECTID) = h :: t →
      loc.value = (AgoModel.latestBy (·.DATE_ASSESSED) h t).value →
      loc.value.isSome →
      ∀ u ∈ CulvertAdmin.update_ago_data clocs rel, u.1 ≠ loc.OBJECTID) := by
  refine ⟨?_, ?_, ?_⟩
  · intro h t hft heq
    rw [CameraCheck.update_camera_eq_filterMap]
    refine AgoModel.filterMap_key_none _ Prod.fst _
      (fun a b => CameraCheck.cameraDecision_key checks a b) pts hnodupP cam hcam ?_
    rw [CameraCheck.cameraDecision_of_filter_cons checks cam h t hft]
    rw [if_neg (by simp [heq])]
  · intro h t hft heq
    rw [HairSnag.update_cubby_eq_filterMap]
    refine AgoModel.filterMap_key_none _ Prod.fst _
      (fun a b => HairSnag.cubbyDecision_key cchecks a b) cubs hnodupS cub hcub ?_
    rw [HairSnag.cubbyDecision_of_filter_cons cchecks cub h t hft]
    rw [if_neg (by simp [heq])]
  · intro h t hft heq hsome
    rw [CulvertAdmin.update_ago_eq_filterMap]
    refine AgoModel.filterMap_key_none _ Prod.fst _
      (fun a b => CulvertAdmin.culvertDecision_key rel a b) clocs hnodupL loc hloc ?_
    rw [CulvertAdmin.culvertDecision_of_filter_cons rel loc h t hft]
    rw [if_neg ?_]
    simp only [Bool.or_eq_true, not_or]
    constructor
    · simpa [Option.isNone_iff_eq_none] using Option.isSome_iff_ne_none.mp hsome
    · simp [heq]

/-- C6 counterexample: a culvert location whose rolled-up field already
equals its only (hence most recent) assessment's value — both missing —
still receives an update on every run, so the culvert rollup is not
idempotent for missing parent values. -/
theorem C6_rollup_counterexample :
    (⟨2, none⟩ : CulvertAdmin.CulvertLoc).value =
      (AgoModel.latestBy (·.DATE_ASSESSED)
        (⟨2, 200, none⟩ : CulvertAdmin.CulvertAssessment) []).value ∧
    CulvertAdmin.update_ago_data [⟨2, none⟩] [⟨2, 200, none⟩] = [(2, none)] := by
  exact ⟨rfl, by decide⟩

/-- C6 witness: camera A's status `Yes` already equals its latest check's
status (`Yes`, dated 2): the run emits no update keyed to A — neither a
reset to `No` nor a rewrite of `Yes`. -/
theorem C6_rollup_idempotent_witness :
    ("A", (some "No" : Option String)) ∉ CameraCheck.update_camera_check_completion
        [⟨"A", some "Yes"⟩] [⟨"A", 1, some "No"⟩, ⟨"A", 2, some "Yes"⟩] ∧
    ("A", (some "Yes" : Option String)) ∉ CameraCheck.update_camera_check_completion
        [⟨"A", some "Yes"⟩] [⟨"A", 1, some "No"⟩, ⟨"A", 2, some "Yes"⟩] := by
  constructor
  · intro hmem
    exact (C6_rollup_idempotent
      [⟨"A", some "Yes"⟩] [⟨"A", 1, some "No"⟩, ⟨"A", 2, some "Yes"⟩] ⟨"A", some "Yes"⟩
      (by decide) (by decide)
      [⟨"S", none⟩] [] ⟨"S", none⟩ (by decide) (by decide)
      [⟨1, none⟩] [] ⟨1, none⟩ (by decide) (by decide)).1
      ⟨"A", 1, some "No"⟩ [⟨"A", 2, some "Yes"⟩] (by decide) (by decide)
      ("A", some "No") hmem rfl
  · intro hmem
    exact (C6_rollup_idempotent
      [⟨"A", some "Yes"⟩] [⟨"A", 1, some "No"⟩, ⟨"A", 2, some "Yes"⟩] ⟨"A", some "Yes"⟩
      (by decide) (by decide)
      [⟨"S", none⟩] [] ⟨"S", none⟩ (by decide) (by decide)
      [⟨1, none⟩] [] ⟨1, none⟩ (by decide) (by decide)).1
      ⟨"A", 1, some "No"⟩ [⟨"A", 2, some "Yes"⟩] (by decide) (by decide)
      ("A", some "Yes") hmem rfl

/-! ## Snapshot export: timestamps and GeoJSON
(`badger_scripts/backup_data_and_photos.convert_flayer_to_geojson`) -/

namespace AgoModel

/-- The Python exceptions the embedded code can surface: `TypeError` (e.g.
dividing a string by 1000) and `ValueError` (e.g. `strptime` on an
invalid date, `max` of an empty sequence). -/
inductive PyErr where
  | typeError
  | valueError
  deriving Repr, DecidableEq

end AgoModel

instance exceptDecEq {ε α : Type} [DecidableEq ε] [DecidableEq α] :
    DecidableEq (Except ε α) := fun x y =>
  match x, y with
  | .ok a, .ok b =>
    if h : a = b then isTrue (by rw [h]) else isFalse (by intro hc; cases hc; exact h rfl)
  | .error a, .error b =>
    if h : a = b then isTrue (by rw [h]) else isFalse (by intro hc; cases hc; exact h rfl)
  | .ok _, .error _ => isFalse (by intro hc; cases hc)
  | .error _, .ok _ => isFalse (by intro hc; cases hc)

namespace BackupData

open AgoModel

/-- A JSON-scalar attribute value as held by a feature: an integer, a
string, or Python `None`. -/
inductive PyVal where
  | int (i : Int)
  | str (s : String)
  | null
  deriving Repr, DecidableEq

/-- The fields `convert_timestamp` treats as epoch-millisecond timestamps
(backup_data_and_photos.py line 344). -/
def timestamp_fields : List String :=
  ["survey_start", "survey_end", "CreationDate", "EditDate"]

/-- Gregorian date of a day count relative to 1970-01-01 (the civil
calendar arithmetic underlying `datetime.fromtimestamp(..., utc)`). -/
def civilFromDays (z0 : Int) : Int × Int × Int :=
  let z := z0 + 719468
  let era := z.fdiv 146097
  let doe := z - era * 146097
  let yoe := (doe - doe / 1460 + doe / 36524 - doe / 146096) / 365
  let y := yoe + era * 400
  let doy := doe - (365 * yoe + yoe / 4 - yoe / 100)
  let mp := (5 * doy + 2) / 153
  let d := doy - (153 * mp + 2) / 5 + 1
  let m := mp + (if mp < 10 then 3 else -9)
  (y + (if m ≤ 2 then 1 else 0), m, d)

/-- Zero-padded decimal rendering of a non-negative number, `w` digits. -/
def padNum (w : Nat) (n : Int) : String :=
  let s := toString n
  String.mk (List.replicate (w - s.length) '0') ++ s

/-- `datetime.fromtimestamp(ms / 1000, tz=timezone.utc).isoformat()` for an
in-range epoch-millisecond integer: ISO-8601 UTC, with the microsecond
part printed only when non-zero, exactly as `isoformat` does. -/
def isoUTC (ms : Int) : String :=
  let s := ms.fdiv 1000
  let usec := ms.emod 1000 * 1000
  let days := s.fdiv 86400
  let sod := s.emod 86400
  let ymd := civilFromDays days
  let base := padNum 4 ymd.1 ++ "-" ++ padNum 2 ymd.2.1 ++ "-" ++ padNum 2 ymd.2.2 ++ "T" ++
    padNum 2 (sod / 3600) ++ ":" ++ padNum 2 (sod % 3600 / 60) ++ ":" ++ padNum 2 (sod % 60)
  (if usec = 0 then base else base ++ "." ++ padNum 6 usec) ++ "+00:00"

/-- Whether `datetime.fromtimestamp(ms / 1000, tz=timezone.utc)` succeeds:
the instant must lie between `datetime.min` (0001-01-01T00:00:00) and
`datetime.max` (9999-12-31T23:59:59.999999); outside, the call raises one
of `OSError`/`OverflowError`/`ValueError`, which `convert_timestamp`
catches. -/
def validEpochMillis (ms : Int) : Bool :=
  decide (-62135596800000 ≤ ms) && decide (ms ≤ 253402300799999)

/-- Embeds `convert_timestamp` (backup_data_and_photos.py lines 343-355): a
value of a known timestamp field is divided by 1000 and formatted; an
out-of-range number lands in the `except (OSError, OverflowError,
ValueError)` handler and is returned unchanged; a non-numeric value
(string or `None`) makes `value / 1000` raise a `TypeError`, which the
handler does not catch; any other field passes through unchanged. -/
def convert_timestamp (key : String) (value : PyVal) : Except PyErr PyVal :=
  if key ∈ timestamp_fields then
    match value with
    | .int v => if validEpochMillis v then .ok (.str (isoUTC v)) else .ok (.int v)
    | .str _ => .error .typeError
    | .null => .error .typeError
  else .ok value

end BackupData

/-- C7 (amended): during snapshot export, an integer value of a known
timestamp field that is valid epoch milliseconds is converted to the
ISO-8601 UTC string; an integer outside the representable datetime range
fails conversion with a caught error and is retained unchanged; but a
non-numeric value (a string or `None`) in such a field raises an uncaught
`TypeError` instead of being retained; values of all other fields pass
through unchanged. -/
theorem C7_timestamp_conversion (key : String) (v : BackupData.PyVal) :
    (key ∉ BackupData.timestamp_fields → BackupData.convert_timestamp key v = .ok v) ∧
    (key ∈ BackupData.timestamp_fields →
      (∀ i : Int, v = .int i → BackupData.validEpochMillis i = true →
        BackupData.convert_timestamp key v = .ok (.str (BackupData.isoUTC i))) ∧
      (∀ i : Int, v = .int i → BackupData.validEpochMillis i = false →
        BackupData.convert_timestamp key v = .ok v) ∧
      (∀ s : String, v = .str s →
        BackupData.convert_timestamp key v = .error .typeError) ∧
      (v = .null → BackupData.convert_timestamp key v = .error .typeError)) := by
  constructor
  · intro hk
    unfold BackupData.convert_timestamp
    rw [if_neg hk]
  · intro hk
    refine ⟨?_, ?_, ?_, ?_⟩
    · intro i hv hvalid
      subst hv
      unfold BackupData.convert_timestamp
      rw [if_pos hk]
      simp [hvalid]
    · intro i hv hvalid
      subst hv
      unfold BackupData.convert_timestamp
      rw [if_pos hk]
      simp [hvalid]
    · intro s hv
      subst hv
      unfold BackupData.convert_timestamp
      rw [if_pos hk]
    · intro hv
      subst hv
      unfold BackupData.convert_timestamp
      rw [if_pos hk]

/-- C7 counterexample: the string value `"abc"` in the timestamp field
`survey_start` is not valid epoch milliseconds, yet instead of being
retained unchanged the conversion raises an uncaught `TypeError`
(`"abc" / 1000`), refuting "the original value is retained unchanged and
no error is raised". -/
theorem C7_timestamp_conversion_counterexample :
    BackupData.convert_timestamp "survey_start" (.str "abc") =
      .error AgoModel.PyErr.typeError ∧
    BackupData.convert_timestamp "survey_start" (.str "abc") ≠
      .ok (.str "abc") := by
  exact ⟨rfl, by decide⟩

/-- C7 witness: `survey_start` with value 0 becomes the epoch's ISO string;
with the out-of-range value 999999999999999999 it is retained unchanged;
a non-timestamp field keeps its value. -/
theorem C7_timestamp_conversion_witness :
    BackupData.convert_timestamp "survey_start" (.int 0) =
      .ok (.str "1970-01-01T00:00:00+00:00") ∧
    BackupData.convert_timestamp "survey_start" (.int 999999999999999999) =
      .ok (.int 999999999999999999) ∧
    BackupData.convert_timestamp "photo_name" (.str "a.jpg") = .ok (.str "a.jpg") := by
  refine ⟨?_, ?_, ?_⟩
  · rw [(C7_timestamp_conversion "survey_start" (.int 0)).2 (by decide) |>.1 0 rfl (by decide)]
    decide
  · exact (C7_timestamp_conversion "survey_start" (.int 999999999999999999)).2
      (by decide) |>.2.1 999999999999999999 rfl (by decide)
  · exact (C7_timestamp_conversion "photo_name" (.str "a.jpg")).1 (by decide)


theorem exceptBind_ok {ε α β : Type} (a : α) (f : α → Except ε β) :
    (Except.ok a >>= f) = f a := rfl

theorem exceptBind_error {ε α β : Type} (e : ε) (f : α → Except ε β) :
    ((Except.error e : Except ε α) >>= f) = .error e := rfl

theorem exceptPure {ε α : Type} (a : α) : (pure a : Except ε α) = .ok a := rfl

namespace BackupData

open AgoModel

/-- A feature of the queried layer as the exporter sees it: point geometry
coordinates `x`, `y` and the attribute map (insertion-ordered). -/
structure SrcFeature where
  x : ℚ
  y : ℚ
  attrs : List (String × PyVal)
  deriving Repr, DecidableEq

/-- One entry of the exported `features` array: `type: Feature`, a `Point`
geometry with its coordinate pair, and the `properties` map. -/
structure GeoFeature where
  ftype : String
  gtype : String
  coordinates : List ℚ
  properties : List (String × PyVal)
  deriving Repr, DecidableEq

/-- The exported snapshot document: the `FeatureCollection` envelope with
its features. (`json.dumps`/`json.load` of this structure are treated as
inverse vendor operations; the model works at the document level.) -/
structure FeatureCollection where
  ctype : String
  features : List GeoFeature
  deriving Repr, DecidableEq

/-- The `properties` dict comprehension of `convert_flayer_to_geojson`:
every key except `SHAPE` is kept, its value passed through
`convert_timestamp`; an uncaught exception aborts the export. -/
def convertProps : List (String × PyVal) → Except PyErr (List (String × PyVal))
  | [] => .ok []
  | (k, v) :: rest => do
    let w ← convert_timestamp k v
    let ws ← convertProps rest
    pure ((k, w) :: ws)

/-- The per-feature conversion of the `features` list comprehension of
`convert_flayer_to_geojson`. -/
def convFeat (f : SrcFeature) : Except PyErr GeoFeature := do
  let props ← convertProps (f.attrs.filter (fun kv => kv.1 ≠ "SHAPE"))
  pure { ftype := "Feature", gtype := "Point", coordinates := [f.x, f.y],
         properties := props }

/-- The `features` list comprehension of `convert_flayer_to_geojson`. -/
def convFeats : List SrcFeature → Except PyErr (List GeoFeature)
  | [] => .ok []
  | f :: rest => do
    let g ← convFeat f
    let feats ← convFeats rest
    pure (g :: feats)

/-- Embeds `convert_flayer_to_geojson` (backup_data_and_photos.py lines
335-383): builds the `FeatureCollection` document whose features carry a
`Point` geometry `[x, y]` and the attribute map without `SHAPE`, with
timestamp fields converted. -/
def convert_flayer_to_geojson (flayer_data : List SrcFeature) :
    Except PyErr FeatureCollection := do
  let feats ← convFeats flayer_data
  pure { ctype := "FeatureCollection", features := feats }

/-- The total value of `convert_timestamp` as observed after a successful
export: the converted value when the call succeeds, the original
otherwise (used only to state the round-trip property). -/
def convertOk (k : String) (v : PyVal) : PyVal :=
  match convert_timestamp k v with
  | .ok w => w
  | .error _ => v

theorem convertProps_ok (l ws : List (String × PyVal)) (h : convertProps l = .ok ws) :
    ws = l.map (fun kv => (kv.1, convertOk kv.1 kv.2)) := by
  induction l generalizing ws with
  | nil =>
    simp only [convertProps] at h
    cases h
    rfl
  | cons kv rest ih =>
    rw [show convertProps (kv :: rest) = (do
        let w ← convert_timestamp kv.1 kv.2
        let ws ← convertProps rest
        pure ((kv.1, w) :: ws)) from rfl] at h
    cases hc : convert_timestamp kv.1 kv.2 with
    | error e =>
      rw [hc, exceptBind_error] at h
      cases h
    | ok w =>
      rw [hc, exceptBind_ok] at h
      cases hr : convertProps rest with
      | error e =>
        rw [hr, exceptBind_error] at h
        cases h
      | ok ws' =>
        rw [hr, exceptBind_ok, exceptPure] at h
        cases h
        rw [ih ws' hr, List.map_cons]
        simp [convertOk, hc]

theorem convFeat_ok (f : SrcFeature) (g : GeoFeature) (h : convFeat f = .ok g) :
    g.ftype = "Feature" ∧ g.gtype = "Point" ∧ g.coordinates = [f.x, f.y] ∧
    g.properties = (f.attrs.filter (fun kv => kv.1 ≠ "SHAPE")).map
      (fun kv => (kv.1, convertOk kv.1 kv.2)) := by
  unfold convFeat at h
  cases hp : convertProps (f.attrs.filter (fun kv => kv.1 ≠ "SHAPE")) with
  | error e =>
    rw [hp, exceptBind_error] at h
    cases h
  | ok props =>
    rw [hp, exceptBind_ok, exceptPure] at h
    cases h
    exact ⟨rfl, rfl, rfl, convertProps_ok _ props hp⟩

theorem convFeats_ok (l : List SrcFeature) :
    ∀ gs : List GeoFeature, convFeats l = .ok gs →
      List.Forall₂ (fun (g : GeoFeature) (sf : SrcFeature) => convFeat sf = .ok g) gs l := by
  induction l with
  | nil =>
    intro gs h
    simp only [convFeats] at h
    cases h
    exact List.Forall₂.nil
  | cons f rest ih =>
    intro gs h
    rw [show convFeats (f :: rest) = (do
        let g ← convFeat f
        let feats ← convFeats rest
        pure (g :: feats)) from rfl] at h
    cases hg : convFeat f with
    | error e =>
      rw [hg, exceptBind_error] at h
      cases h
    | ok g =>
      rw [hg, exceptBind_ok] at h
      cases hr : convFeats rest with
      | error e =>
        rw [hr, exceptBind_error] at h
        cases h
      | ok feats =>
        rw [hr, exceptBind_ok, exceptPure] at h
        cases h
        exact List.Forall₂.cons hg (ih feats hr)

end BackupData

/-! ## Snapshot import: `badger_scripts/restore_data_from_os.restore_data` -/

namespace RestoreData

open AgoModel

/-- A feature recreated by the importer: `Feature(geometry=
feature['geometry'], attributes=feature['properties'])` — the whole
geometry object (its type and coordinates) and the properties map. -/
structure RestoredFeature where
  geometry : String × List ℚ
  attributes : List (String × BackupData.PyVal)
  deriving Repr, DecidableEq

/-- Embeds the feature-recreation comprehension of `restore_data`
(restore_data_from_os.py line 127), which turns each document feature
back into a layer feature. -/
def restore_data_features (geojson_data : BackupData.FeatureCollection) :
    List RestoredFeature :=
  geojson_data.features.map
    (fun f => { geometry := (f.gtype, f.coordinates), attributes := f.properties })

end RestoreData

/-- C8 (amended): exporting a record set and re-importing the snapshot
reproduces, record for record, a feature whose point coordinates equal
the original `x`, `y` and whose attribute map equals the original one
with the `SHAPE` key removed and the timestamp-field formatting applied —
equivalence holds modulo timestamp formatting only after also dropping
`SHAPE`. -/
theorem C8_roundtrip (fs : List BackupData.SrcFeature)
    (fc : BackupData.FeatureCollection)
    (hexp : BackupData.convert_flayer_to_geojson fs = .ok fc) :
    List.Forall₂
      (fun (rf : RestoreData.RestoredFeature) (sf : BackupData.SrcFeature) =>
        rf.geometry.2 = [sf.x, sf.y] ∧
        rf.attributes = (sf.attrs.filter (fun kv => kv.1 ≠ "SHAPE")).map
          (fun kv => (kv.1, BackupData.convertOk kv.1 kv.2)))
      (RestoreData.restore_data_features fc) fs := by
  rw [show BackupData.convert_flayer_to_geojson fs = (do
      let feats ← BackupData.convFeats fs
      pure ({ ctype := "FeatureCollection", features := feats } :
        BackupData.FeatureCollection)) from rfl] at hexp
  cases hf : BackupData.convFeats fs with
  | error e =>
    rw [hf, exceptBind_error] at hexp
    cases hexp
  | ok feats =>
    rw [hf, exceptBind_ok, exceptPure] at hexp
    cases hexp
    unfold RestoreData.restore_data_features
    rw [List.forall₂_map_left_iff]
    refine List.Forall₂.imp ?_ (BackupData.convFeats_ok fs feats hf)
    intro g sf hg
    obtain ⟨-, -, hco, hpr⟩ := BackupData.convFeat_ok sf g hg
    exact ⟨hco, hpr⟩

/-- C8 counterexample: a record whose attribute map contains a `SHAPE`
entry and no timestamp field at all: the restored attribute map lacks the
`SHAPE` entry, so re-import does not reproduce an equivalent attribute
map even though no timestamp formatting is involved. -/
theorem C8_roundtrip_counterexample :
    BackupData.convert_flayer_to_geojson
        [⟨0, 0, [("SHAPE", .int 7), ("photo_name", .null)]⟩] =
      .ok ⟨"FeatureCollection",
        [⟨"Feature", "Point", [0, 0], [("photo_name", .null)]⟩]⟩ ∧
    (RestoreData.restore_data_features
        ⟨"FeatureCollection",
          [⟨"Feature", "Point", [0, 0], [("photo_name", .null)]⟩]⟩).map
      (fun rf => rf.attributes) =
      [[("photo_name", BackupData.PyVal.null)]] ∧
    ([[("photo_name", BackupData.PyVal.null)]] :
        List (List (String × BackupData.PyVal))) ≠
      [[("SHAPE", BackupData.PyVal.int 7), ("photo_name", BackupData.PyVal.null)]] ∧
    (∀ kv ∈ [("SHAPE", BackupData.PyVal.int 7), ("photo_name", BackupData.PyVal.null)],
      kv.1 ∉ BackupData.timestamp_fields) := by
  refine ⟨rfl, rfl, by decide, by decide⟩

/-- C8 witness: a one-record set with a timestamp field and a plain field
exports successfully, and the restored feature carries the original
coordinates and the SHAPE-free, timestamp-formatted attribute map. -/
theorem C8_roundtrip_witness :
    List.Forall₂
      (fun (rf : RestoreData.RestoredFeature) (sf : BackupData.SrcFeature) =>
        rf.geometry.2 = [sf.x, sf.y] ∧
        rf.attributes = (sf.attrs.filter (fun kv => kv.1 ≠ "SHAPE")).map
          (fun kv => (kv.1, BackupData.convertOk kv.1 kv.2)))
      (RestoreData.restore_data_features
        ⟨"FeatureCollection",
          [⟨"Feature", "Point", [1, 2],
            [("photo_name", .str "a.jpg"),
             ("CreationDate", .str "1970-01-01T00:00:01+00:00")]⟩]⟩)
      [⟨1, 2, [("photo_name", .str "a.jpg"), ("CreationDate", .int 1000)]⟩] := by
  exact C8_roundtrip
    [⟨1, 2, [("photo_name", .str "a.jpg"), ("CreationDate", .int 1000)]⟩]
    ⟨"FeatureCollection",
      [⟨"Feature", "Point", [1, 2],
        [("photo_name", .str "a.jpg"),
         ("CreationDate", .str "1970-01-01T00:00:01+00:00")]⟩]⟩
    (by decide)

/-! ## Snapshot selection:
`badger_scripts/restore_data_from_os.get_object_storage_content` -/

namespace RestoreData

open AgoModel

/-- Python `s.split('/')` over the character list (for
`os.path.basename`). -/
def splitSlashCore : List Char → List Char → List String
  | acc, [] => [String.mk acc.reverse]
  | acc, c :: cs =>
    if c = '/' then String.mk acc.reverse :: splitSlashCore [] cs
    else splitSlashCore (c :: acc) cs

/-- `os.path.basename`: the part after the last `/`. -/
def pyBasename (s : String) : String :=
  (splitSlashCore [] s.data).getLastD ""

/-- Python `s.lower()` (ASCII case folding, as in the filenames here). -/
def pyLower (s : String) : String :=
  String.mk (s.data.map Char.toLower)

/-- Python `s.endswith(suffix)`. -/
def pyEndsWith (s sfx : String) : Bool :=
  strStartsWithCore s.data.reverse sfx.data.reverse

/-- A `datetime` value as far as filename comparison needs it. -/
structure PyDate where
  year : Int
  month : Int
  day : Int
  deriving Repr, DecidableEq

/-- `datetime` comparison: lexicographic on (year, month, day). -/
def dateLt (a b : PyDate) : Bool :=
  decide (a.year < b.year ∨ (a.year = b.year ∧
    (a.month < b.month ∨ (a.month = b.month ∧ a.day < b.day))))

/-- Whether the regex `\d{2}-\d{2}-\d{4}` matches at this position. -/
def matchesDateTok (cs : List Char) : Bool :=
  match cs with
  | d1 :: d2 :: h1 :: d3 :: d4 :: h2 :: y1 :: y2 :: y3 :: y4 :: _ =>
    d1.isDigit && d2.isDigit && h1 = '-' && d3.isDigit && d4.isDigit && h2 = '-' &&
    y1.isDigit && y2.isDigit && y3.isDigit && y4.isDigit
  | _ => false

/-- `re.search`: the leftmost match of the date pattern, if any. -/
def firstDateTok : List Char → Option (List Char)
  | [] => none
  | c :: cs =>
    if matchesDateTok (c :: cs) then some ((c :: cs).take 10) else firstDateTok cs

def digitVal (c : Char) : Int := (c.toNat - '0'.toNat : Nat)

/-- Numeric day, month, year of a 10-character `dd-mm-yyyy` token. -/
def parseDateTok : List Char → Option (Int × Int × Int)
  | [d1, d2, _, m1, m2, _, y1, y2, y3, y4] =>
    some (10 * digitVal d1 + digitVal d2, 10 * digitVal m1 + digitVal m2,
      1000 * digitVal y1 + 100 * digitVal y2 + 10 * digitVal y3 + digitVal y4)
  | _ => none

def isLeap (y : Int) : Bool := (y % 4 == 0 && y % 100 != 0) || y % 400 == 0

def daysInMonth (y m : Int) : Int :=
  if m = 2 then (if isLeap y then 29 else 28)
  else if m = 4 ∨ m = 6 ∨ m = 9 ∨ m = 11 then 30 else 31

/-- Whether `datetime.strptime(tok, '%d-%m-%Y')` succeeds. -/
def validDMY (d m y : Int) : Bool :=
  decide (1 ≤ y) && decide (y ≤ 9999) && decide (1 ≤ m) && decide (m ≤ 12) &&
  decide (1 ≤ d) && decide (d ≤ daysInMonth y m)

/-- Embeds `extract_date` (restore_data_from_os.py lines 77-82): search the
file name for a `\d{2}-\d{2}-\d{4}` token; no match returns `None`; a
match is parsed with `strptime('%d-%m-%Y')`, whose failure on an invalid
date is an uncaught `ValueError`. -/
def extract_date (file_name : String) : Except PyErr (Option PyDate) :=
  match firstDateTok file_name.data with
  | none => .ok none
  | some tok =>
    match parseDateTok tok with
    | none => .error .valueError
    | some dmy =>
      if validDMY dmy.1 dmy.2.1 dmy.2.2 then .ok (some ⟨dmy.2.2, dmy.2.1, dmy.1⟩)
      else .error .valueError

/-- One comparison step of Python `max(..., key=extract_date)`: the keys of
the current best and the candidate are compared with `<`; comparing
`None` with a `datetime` (or `None` with `None`) raises `TypeError`. -/
def keyLt (x y : Option PyDate) : Except PyErr Bool :=
  match x, y with
  | some a, some b => .ok (dateLt a b)
  | _, _ => .error .typeError

/-- The loop of Python `max(lst, key=extract_date)`: a later element
replaces the current best exactly when its key is strictly greater. -/
def pyMaxGo (best : String) : List String → Except PyErr String
  | [] => .ok best
  | y :: ys => do
    let kb ← extract_date best
    let ky ← extract_date y
    let b ← keyLt kb ky
    pyMaxGo (if b then y else best) ys

/-- Python `max(lst, key=extract_date)`; `max` of an empty sequence raises
`ValueError`. -/
def pyMaxByDate : List String → Except PyErr String
  | [] => .error .valueError
  | x :: xs => pyMaxGo x xs

/-- The `.geojson` candidates of `get_object_storage_content`
(restore_data_from_os.py lines 64-71): the basenames of all stored object
keys whose lower-cased name ends in `.geojson`. -/
def geojsonCandidates (objectKeys : List String) : List String :=
  (objectKeys.map pyBasename).filter (fun g => pyEndsWith (pyLower g) ".geojson")

/-- Embeds the snapshot choice of `get_object_storage_content`
(restore_data_from_os.py lines 55-104): the candidate whose embedded date
token is maximal is selected; the chosen file is then downloaded from
`backup_data/` and parsed. -/
def get_object_storage_content_choice (objectKeys : List String) :
    Except PyErr String :=
  pyMaxByDate (geojsonCandidates objectKeys)

theorem dateLt_irrefl (a : PyDate) : dateLt a a = false := by
  simp [dateLt]

theorem dateLt_trans (a b c : PyDate) (h1 : dateLt a b = true) (h2 : dateLt b c = true) :
    dateLt a c = true := by
  simp only [dateLt, decide_eq_true_eq] at h1 h2 ⊢
  rcases h1 with h1 | ⟨he1, h1⟩ <;> rcases h2 with h2 | ⟨he2, h2⟩
  · exact Or.inl (lt_trans h1 h2)
  · exact Or.inl (he2 ▸ h1)
  · exact Or.inl (he1 ▸ h2)
  · refine Or.inr ⟨he1.trans he2, ?_⟩
    rcases h1 with h1 | ⟨hm1, h1⟩ <;> rcases h2 with h2 | ⟨hm2, h2⟩
    · exact Or.inl (lt_trans h1 h2)
    · exact Or.inl (hm2 ▸ h1)
    · exact Or.inl (hm1 ▸ h2)
    · exact Or.inr ⟨hm1.trans hm2, lt_trans h1 h2⟩

theorem dateLt_false_trans (a b c : PyDate) (h1 : dateLt a b = false)
    (h2 : dateLt b c = false) : dateLt a c = false := by
  simp only [dateLt, decide_eq_false_iff_not, not_or, not_and] at h1 h2 ⊢
  omega

theorem pyMaxGo_spec (xs : List String) :
    ∀ (best : String) (db : PyDate), extract_date best = .ok (some db) →
      (∀ g ∈ xs, ∃ d, extract_date g = .ok (some d)) →
      ∃ (r : String) (dr : PyDate), pyMaxGo best xs = .ok r ∧ (r = best ∨ r ∈ xs) ∧
        extract_date r = .ok (some dr) ∧ dateLt dr db = false ∧
        ∀ g ∈ xs, ∀ dg, extract_date g = .ok (some dg) → dateLt dr dg = false := by
  induction xs with
  | nil =>
    intro best db hb _
    exact ⟨best, db, rfl, Or.inl rfl, hb, dateLt_irrefl db, by simp⟩
  | cons y ys ih =>
    intro best db hb hall
    obtain ⟨dy, hy⟩ := hall y (by simp)
    rw [show pyMaxGo best (y :: ys) = (do
        let kb ← extract_date best
        let ky ← extract_date y
        let b ← keyLt kb ky
        pyMaxGo (if b then y else best) ys) from rfl]
    rw [hb, exceptBind_ok, hy, exceptBind_ok]
    rw [show keyLt (some db) (some dy) = .ok (dateLt db dy) from rfl, exceptBind_ok]
    by_cases hlt : dateLt db dy = true
    · rw [if_pos hlt]
      obtain ⟨r, dr, hgo, hmem, hr, hge, hmax⟩ :=
        ih y dy hy (fun g hg => hall g (by simp [hg]))
      refine ⟨r, dr, hgo, ?_, hr, ?_, ?_⟩
      · rcases hmem with h | h
        · exact Or.inr (by simp [h])
        · exact Or.inr (by simp [h])
      · by_cases hc : dateLt dr db = true
        · exact absurd (dateLt_trans dr db dy hc hlt) (by simp [hge])
        · simpa using hc
      · intro g hg dg hgd
        rcases List.mem_cons.mp hg with h | h
        · rw [show dg = dy from by
            rw [h] at hgd; rw [hgd] at hy; cases hy; rfl]
          exact hge
        · exact hmax g h dg hgd
    · rw [if_neg hlt]
      obtain ⟨r, dr, hgo, hmem, hr, hge, hmax⟩ :=
        ih best db hb (fun g hg => hall g (by simp [hg]))
      refine ⟨r, dr, hgo, ?_, hr, hge, ?_⟩
      · rcases hmem with h | h
        · exact Or.inl h
        · exact Or.inr (by simp [h])
      · intro g hg dg hgd
        rcases List.mem_cons.mp hg with h | h
        · rw [show dg = dy from by
            rw [h] at hgd; rw [hgd] at hy; cases hy; rfl]
          exact dateLt_false_trans dr db dy hge (by simpa using hlt)
        · exact hmax g h dg hgd

end RestoreData

/-- C9: for every non-empty collection of stored `.geojson` snapshot files
each carrying a parseable `dd-mm-yyyy` date token in its name, the
importer's choice succeeds, is one of the candidates, and its embedded
date is the maximum among all candidates' dates (Python `max` keeps the
first of equally-dated files). -/
theorem C9_latest_snapshot (objectKeys : List String)
    (hne : RestoreData.geojsonCandidates objectKeys ≠ [])
    (hall : ∀ g ∈ RestoreData.geojsonCandidates objectKeys,
      ∃ d, RestoreData.extract_date g = .ok (some d)) :
    ∃ chosen dc, RestoreData.get_object_storage_content_choice objectKeys = .ok chosen ∧
      chosen ∈ RestoreData.geojsonCandidates objectKeys ∧
      RestoreData.extract_date chosen = .ok (some dc) ∧
      ∀ g ∈ RestoreData.geojsonCandidates objectKeys,
        ∀ dg, RestoreData.extract_date g = .ok (some dg) →
          RestoreData.dateLt dc dg = false := by
  unfold RestoreData.get_object_storage_content_choice
  cases hc : RestoreData.geojsonCandidates objectKeys with
  | nil => exact absurd hc hne
  | cons x xs =>
    rw [hc] at hall
    obtain ⟨dx, hx⟩ := hall x (by simp)
    obtain ⟨r, dr, hgo, hmem, hr, hge, hmax⟩ :=
      RestoreData.pyMaxGo_spec xs x dx hx (fun g hg => hall g (by simp [hg]))
    refine ⟨r, dr, ?_, ?_, hr, ?_⟩
    · rw [show RestoreData.pyMaxByDate (x :: xs) = RestoreData.pyMaxGo x xs from rfl]
      exact hgo
    · rcases hmem with h | h
      · simp [h]
      · simp [h]
    · intro g hg dg hgd
      rcases List.mem_cons.mp hg with h | h
      · rw [show dg = dx from by
          rw [h] at hgd; rw [hgd] at hx; cases hx; rfl]
        exact hge
      · exact hmax g h dg hgd

/-- C9 witness: among the stored objects, the `.geojson` basenames carry
dates 01-09-2024 and 15-10-2024 (and a non-geojson object is ignored);
the chosen snapshot is the one dated 15-10-2024. -/
theorem C9_latest_snapshot_witness :
    ∃ chosen dc,
      RestoreData.get_object_storage_content_choice
        ["backup_data/survey123_raw_backup_data_01-09-2024.geojson",
         "backup_data/survey123_raw_backup_data_15-10-2024.geojson",
         "badger_sightings_photos/5_2024-01-01_1.jpg"] = .ok chosen ∧
      chosen ∈ RestoreData.geojsonCandidates
        ["backup_data/survey123_raw_backup_data_01-09-2024.geojson",
         "backup_data/survey123_raw_backup_data_15-10-2024.geojson",
         "badger_sightings_photos/5_2024-01-01_1.jpg"] ∧
      RestoreData.extract_date chosen = .ok (some dc) ∧
      ∀ g ∈ RestoreData.geojsonCandidates
        ["backup_data/survey123_raw_backup_data_01-09-2024.geojson",
         "backup_data/survey123_raw_backup_data_15-10-2024.geojson",
         "badger_sightings_photos/5_2024-01-01_1.jpg"],
        ∀ dg, RestoreData.extract_date g = .ok (some dg) →
          RestoreData.dateLt dc dg = false := by
  exact C9_latest_snapshot
    ["backup_data/survey123_raw_backup_data_01-09-2024.geojson",
     "backup_data/survey123_raw_backup_data_15-10-2024.geojson",
     "badger_sightings_photos/5_2024-01-01_1.jpg"]
    (by decide)
    (by
      intro g hg
      rw [show RestoreData.geojsonCandidates
          ["backup_data/survey123_raw_backup_data_01-09-2024.geojson",
           "backup_data/survey123_raw_backup_data_15-10-2024.geojson",
           "badger_sightings_photos/5_2024-01-01_1.jpg"] =
          ["survey123_raw_backup_data_01-09-2024.geojson",
           "survey123_raw_backup_data_15-10-2024.geojson"] from by decide] at hg
      rcases (by simpa using hg : g = "survey123_raw_backup_data_01-09-2024.geojson" ∨
          g = "survey123_raw_backup_data_15-10-2024.geojson") with h | h <;> subst h
      · exact ⟨⟨2024, 9, 1⟩, by decide⟩
      · exact ⟨⟨2024, 10, 15⟩, by decide⟩)
